import Mathlib

/-!
Verification development for the CBOR-style decoder of the amazon-dax-client
repository (file `CborDecoder.js`).  The decoder is a cursor-based reader that
turns a byte buffer into structured values.  The JavaScript class is embedded
shallowly: the mutable decoder instance becomes an explicit `DecoderState`,
exceptions become an error component that also carries the state at the throw
point (JavaScript exceptions do not roll back mutations), and the recursive
`decodeObject` family becomes a fuel-indexed interpreter.

Machine-number subtleties of the source are modelled explicitly:
* reading a byte at an out-of-range index yields `undefined` in JavaScript;
  the model uses `List.getD _ _ 0` and every theorem below constrains its
  reads to be in bounds, so the difference is never observable in a theorem;
* a `BigNumber` (arbitrary-precision integer, or its NaN) that flows into a
  native-number context is coerced by JavaScript through its decimal string
  to a 64-bit float; for integers this is rounding to the nearest double with
  ties to even, modelled by `roundDouble`.
-/

/-- Byte access `buffer[i]`.  JavaScript yields `undefined` out of range; the
model defaults to 0 and all theorems keep such reads in bounds. -/
def byteAt (buffer : List Nat) (i : Nat) : Nat :=
  buffer.getD i 0

/-- Big-endian 16-bit read `buffer.readUInt16BE(i)`. -/
def readUInt16BE (buffer : List Nat) (i : Nat) : Nat :=
  byteAt buffer i * 256 + byteAt buffer (i+1)

/-- Big-endian 32-bit read `buffer.readUInt32BE(i)`. -/
def readUInt32BE (buffer : List Nat) (i : Nat) : Nat :=
  byteAt buffer i * 2^24 + byteAt buffer (i+1) * 2^16 +
    byteAt buffer (i+2) * 2^8 + byteAt buffer (i+3)

/-- Number of binary digits of `n` (0 for 0), via an explicit fuel so that the
definition reduces inside the kernel. -/
def bitlenAux : Nat → Nat → Nat
  | 0, _ => 0
  | f+1, n => if n = 0 then 0 else bitlenAux f (n / 2) + 1

/-- Number of binary digits of `n`. -/
def bitlen (n : Nat) : Nat := bitlenAux n n

/-- Rounding of a natural number to the nearest IEEE-754 double
(53-bit significand), ties to even.  Exact below `2^53`. -/
def roundDoubleNat (n : Nat) : Nat :=
  if n ≤ 2^53 then n
  else
    let k := bitlen n - 53
    let q := n / 2^k
    let r := n % 2^k
    let h := 2^(k-1)
    if r < h then q * 2^k
    else if h < r then (q+1) * 2^k
    else if q % 2 = 0 then q * 2^k else (q+1) * 2^k

/-- Rounding of an integer to the nearest IEEE-754 double, ties to even.
This is the value JavaScript obtains when a `BigNumber` integer is coerced
to a native number (via its decimal string).  Overflow to infinity happens
only beyond `2^1024`, far outside every value handled below. -/
def roundDouble (z : ℤ) : ℤ :=
  if z < 0 then -(roundDoubleNat (-z).toNat) else roundDoubleNat z.toNat

/-! ### Wire-format constants

Modelled from the spec: the type-code table (`CborTypes.js`) is an external
lookup module not included under `src/`; the spec fixes the layout — the top
3 bits of a type byte select the major type, the bottom 5 bits the minor
type, with the standard CBOR assignments for the simple values, float widths,
break marker and the big-integer / decimal tag numbers. -/

def TYPE_POSINT : Nat := 0
def TYPE_NEGINT : Nat := 32
def TYPE_BYTES : Nat := 64
def TYPE_UTF : Nat := 96
def TYPE_ARRAY : Nat := 128
def TYPE_MAP : Nat := 160
def TYPE_TAG : Nat := 192
def TYPE_SIMPLE : Nat := 224

def SIZE_8 : Nat := 24
def SIZE_16 : Nat := 25
def SIZE_32 : Nat := 26
def SIZE_64 : Nat := 27
def SIZE_STREAM : Nat := 31

def TYPE_FALSE : Nat := 0xf4
def TYPE_TRUE : Nat := 0xf5
def TYPE_NULL : Nat := 0xf6
def TYPE_UNDEFINED : Nat := 0xf7
def TYPE_FLOAT_16 : Nat := 0xf9
def TYPE_FLOAT_32 : Nat := 0xfa
def TYPE_FLOAT_64 : Nat := 0xfb
def TYPE_BREAK : Nat := 0xff

def TAG_POSBIGINT : ℤ := 2
def TAG_NEGBIGINT : ℤ := 3
def TAG_DECIMAL : ℤ := 4

/-- Modelled from the spec: major type of a type byte (top 3 bits, kept in
place so the `TYPE_*` constants compare directly). -/
def majorType (t : Nat) : Nat := t % 256 / 32 * 32

/-- Modelled from the spec: minor type / additional info (bottom 5 bits). -/
def minorType (t : Nat) : Nat := t % 32

/-- Modelled from the spec: major-type test of a type byte. -/
def isMajorType (t ty : Nat) : Bool := majorType t = ty

/-- `SHIFT32 = Math.pow(2, 32)` from the source. -/
def SHIFT32 : ℤ := 2^32

/-! ### Value model -/

/-- The arbitrary-precision integer collaborator (`BigNumber`), including its
not-a-number value (produced for instance by parsing an empty string). -/
inductive BigNum where
  | nan : BigNum
  | int (z : ℤ) : BigNum
deriving DecidableEq

/-- `BigNumber#neg().sub(1)`, NaN-propagating. -/
def BigNum.negSub1 : BigNum → BigNum
  | .nan => .nan
  | .int z => .int (-z - 1)

/-- An integer-valued result that is either a native JavaScript number or a
`BigNumber` instance, as returned by the primitive value reader. -/
inductive NumVal where
  | num (z : ℤ) : NumVal
  | big (b : BigNum) : NumVal
deriving DecidableEq

/-- Strict (`===`) comparison of such a result with a numeric constant:
a `BigNumber` object is never strictly equal to a number. -/
def NumVal.isNum : NumVal → ℤ → Bool
  | .num z, c => z = c
  | .big _, _ => false

/-- Loose (`==`, `!=`) comparison with a numeric constant: a `BigNumber` is
coerced through its decimal string to a double before the comparison, NaN
compares unequal to everything. -/
def NumVal.looseEqInt : NumVal → ℤ → Bool
  | .num z, c => z = c
  | .big (.int z), c => roundDouble z = c
  | .big .nan, _ => false

/-- Loose comparison of the native loop counter `i` with a decoded length. -/
def jsLooseEqNat (i : Nat) : NumVal → Bool
  | .num z => (i : ℤ) = z
  | .big (.int z) => (i : ℤ) = roundDouble z
  | .big .nan => false

/-- Width used when a decoded length is fed to a slice: the integer value of
the length (lengths beyond the native safe range never pass an availability
check against a finite limit). -/
def lenToNat : NumVal → Nat
  | .num z => z.toNat
  | .big (.int z) => z.toNat
  | .big .nan => 0

/-- A JavaScript float value: a finite (always exactly representable)
rational, a signed infinity, or NaN. -/
inductive JsFloat where
  | val (q : ℚ) : JsFloat
  | inf (neg : Bool) : JsFloat
  | nan : JsFloat
deriving DecidableEq

/-- Modelled from the spec: the opaque scaled-decimal wrapper (`BigDecimal`),
an unscaled arbitrary-precision integer together with a power-of-ten
exponent.  The exponent slot receives a native number; `none` models NaN. -/
structure BigDecimal where
  unscaled : BigNum
  exp10 : Option ℤ
deriving DecidableEq

/-- The closed set of decoded values. -/
inductive Value where
  | null : Value
  | bool (b : Bool) : Value
  | num (z : ℤ) : Value
  | big (b : BigNum) : Value
  | dec (d : BigDecimal) : Value
  | float (f : JsFloat) : Value
  | bytes (bs : List Nat) : Value
  | str (units : List Nat) : Value
  | arr (elems : List Value) : Value
  | map (entries : List (List Nat × Value)) : Value

/-- Conversion of an integer result to a decoded value. -/
def NumVal.toValue : NumVal → Value
  | .num z => .num z
  | .big b => .big b

/-- `new BigNumber(x)` on a decoded value: exact for numbers and for
`BigNumber` instances, NaN otherwise. -/
def valueToBigNum : Value → BigNum
  | .num z => .int z
  | .big b => b
  | _ => .nan

/-! ### Decoder state and effect monad -/

/-- The mutable fields of a `CborDecoder` instance: the backing buffer, the
read offset `start`, the exclusive limit `_limit` (`none` models the
JavaScript `undefined` assigned by the streaming branch of `decodeCbor`), and
the accumulating stream buffer `_byteStreamBuffer`. -/
structure DecoderState where
  buffer : List Nat
  start : Nat
  limit : Option Nat
  sbuf : List Nat
deriving DecidableEq

/-- The error conditions raised by the decoder, one constructor per throw
site. `needMoreData` is the distinguished Incomplete condition; `outOfFuel`
is an artifact of the fuel-indexed embedding and never occurs in any run that
the theorems below describe. -/
inductive DecodeError where
  | needMoreData
  | outOfFuel
  | notString
  | notBytes
  | notInteger
  | notFloat
  | notArray
  | notMap
  | notTag
  | notCborBytes
  | unexpectedBreak
  | unhandledType
  | invalidSize
  | invalidBigIntTag
  | bigIntNotBinary
  | wrongDecimalTag
  | malformedDecimal
  | duplicateKey
deriving DecidableEq

/-- The decoding effect: a state transformer whose failure keeps the state at
the throw point, exactly as a thrown JavaScript exception leaves the mutated
instance behind. -/
def DecodeM (α : Type) : Type :=
  DecoderState → (Except DecodeError α) × DecoderState

def DecodeM.pure {α : Type} (a : α) : DecodeM α := fun s => (.ok a, s)

def DecodeM.bind {α β : Type} (x : DecodeM α) (f : α → DecodeM β) : DecodeM β :=
  fun s =>
    match x s with
    | (.ok a, s') => f a s'
    | (.error e, s') => (.error e, s')

def DecodeM.throw {α : Type} (e : DecodeError) : DecodeM α :=
  fun s => (.error e, s)

instance : Monad DecodeM where
  pure := DecodeM.pure
  bind := DecodeM.bind

@[simp] theorem DecodeM.bind_eq {α β : Type} :
    (Bind.bind : DecodeM α → (α → DecodeM β) → DecodeM β) = DecodeM.bind := rfl

@[simp] theorem DecodeM.pure_eq {α : Type} :
    (Pure.pure : α → DecodeM α) = DecodeM.pure := rfl

@[simp] theorem DecodeM.bind_apply {α β : Type} (x : DecodeM α)
    (f : α → DecodeM β) (s : DecoderState) :
    DecodeM.bind x f s =
      match x s with
      | (.ok a, s') => f a s'
      | (.error e, s') => (.error e, s') := rfl

@[simp] theorem DecodeM.pure_apply {α : Type} (a : α) (s : DecoderState) :
    DecodeM.pure a s = (.ok a, s) := rfl

@[simp] theorem DecodeM.throw_apply {α : Type} (e : DecodeError) (s : DecoderState) :
    DecodeM.throw (α := α) e s = (.error e, s) := rfl

/-- `_consume(n)`: advance the offset unconditionally. -/
def consume (n : Nat) : DecodeM Unit :=
  fun s => (.ok (), {s with start := s.start + n})

/-- `_ensureAvailable(n)` for a native count: fails with the Incomplete
condition when fewer than `n` bytes remain before the limit, never mutates
the offset.  With `_limit` unset (`undefined`), the JavaScript comparison
`undefined - start < n` is a NaN comparison and is false, so the check
passes vacuously. -/
def ensureAvailable (n : ℤ) : DecodeM Unit :=
  fun s =>
    match s.limit with
    | none => (.ok (), s)
    | some L => if (L : ℤ) - s.start < n then (.error .needMoreData, s) else (.ok (), s)

/-- `_ensureAvailable(length)` applied to a decoded length, which may be a
`BigNumber`: the comparison coerces a `BigNumber` to a double and a NaN
comparison is false. -/
def ensureAvailableLen (len : NumVal) : DecodeM Unit :=
  fun s =>
    match s.limit with
    | none => (.ok (), s)
    | some L =>
      match len with
      | .num z => if (L : ℤ) - s.start < z then (.error .needMoreData, s) else (.ok (), s)
      | .big (.int z) =>
        if (L : ℤ) - s.start < roundDouble z then (.error .needMoreData, s) else (.ok (), s)
      | .big .nan => (.ok (), s)

/-- `peek()`: read the byte at the offset without consuming it. -/
def peek : DecodeM Nat :=
  DecodeM.bind (ensureAvailable 1) (fun _ s => (.ok (byteAt s.buffer s.start), s))

/-- Relative byte read `this.buffer[this.start + off]`. -/
def byteRel (off : Nat) : DecodeM Nat :=
  fun s => (.ok (byteAt s.buffer (s.start + off)), s)

/-- Relative `readUInt16BE(this.start + off)`. -/
def read16Rel (off : Nat) : DecodeM Nat :=
  fun s => (.ok (readUInt16BE s.buffer (s.start + off)), s)

/-- Relative `readUInt32BE(this.start + off)`. -/
def read32Rel (off : Nat) : DecodeM Nat :=
  fun s => (.ok (readUInt32BE s.buffer (s.start + off)), s)

/-- `tryDecodeBreak()`: peek and consume the break marker if present. -/
def tryDecodeBreak : DecodeM Bool := do
  let val ← peek
  if val = TYPE_BREAK then do
    consume 1
    pure true
  else
    pure false

/-- `tryDecodeNull()`. -/
def tryDecodeNull : DecodeM Bool := do
  let val ← peek
  if val = TYPE_NULL then do
    consume 1
    pure true
  else
    pure false

/-- The native safe-integer test the source applies to the 64-bit case,
`result >= Number.MIN_SAFE_INTEGER && result <= Number.MAX_SAFE_INTEGER`,
with the `BigNumber` operand coerced through its string to a double. -/
def inSafeIntegerRange (z : ℤ) : Bool :=
  -(2^53 - 1) ≤ roundDouble z && roundDouble z ≤ 2^53 - 1

/-- `_decodeValue(v)`: the primitive value reader.  Decodes the minor-type
scheme of the type byte `v` into an unsigned magnitude (or the `-1` stream
sentinel), consuming the type byte and its extension bytes. -/
def decodeValue (v : Nat) : DecodeM NumVal :=
  let size := minorType v
  if size < SIZE_8 then do
    consume 1
    pure (.num size)
  else if size = SIZE_8 then do
    ensureAvailable 2
    let r ← byteRel 1
    consume 2
    pure (.num r)
  else if size = SIZE_16 then do
    ensureAvailable 3
    let r ← read16Rel 1
    consume 3
    pure (.num r)
  else if size = SIZE_32 then do
    ensureAvailable 5
    let r ← read32Rel 1
    consume 5
    pure (.num r)
  else if size = SIZE_64 then do
    ensureAvailable 9
    let f ← read32Rel 1
    let g ← read32Rel 5
    let result : ℤ := (f : ℤ) * SHIFT32 + (g : ℤ)
    consume 9
    pure (if inSafeIntegerRange result then .num result else .big (.int result))
  else if size = SIZE_STREAM then do
    consume 1
    pure (.num (-1))
  else
    DecodeM.throw .invalidSize

/-- Extension byte count of a minor type, for stating the cursor invariant:
`_decodeValue` consumes exactly `1 + extensionBytes (minorType v)` bytes on
success. -/
def extensionBytes (size : Nat) : Nat :=
  if size < SIZE_8 then 0
  else if size = SIZE_8 then 1
  else if size = SIZE_16 then 2
  else if size = SIZE_32 then 4
  else if size = SIZE_64 then 8
  else 0

/-! ### Scalar decoders -/

/-- `_parseHalf(buf, offset)`: manual half-precision decode from the two
bytes following the type byte.  The literal `5.9604644775390625e-8` of the
source is exactly `2^-24`; `sign * (mant ? 0/0 : 2e308)` evaluates to NaN
when the mantissa is non-zero and to a signed infinity otherwise (the
literal `2e308` overflows to infinity). -/
def parseHalf (b0 b1 : Nat) : JsFloat :=
  let sign : ℚ := if b0 &&& 0x80 ≠ 0 then -1 else 1
  let exp := (b0 &&& 0x7C) >>> 2
  let mant := ((b0 &&& 0x03) <<< 8) ||| b1
  if exp = 0 then
    .val (sign * (5.9604644775390625e-8 : ℚ) * mant)
  else if exp = 0x1f then
    if mant ≠ 0 then .nan else .inf (b0 &&& 0x80 ≠ 0)
  else
    .val (sign * (2:ℚ)^((exp : ℤ) - 25) * (1024 + mant))

/-- `buffer.readFloatBE`: IEEE-754 binary32 decode of four bytes. -/
def float32FromBytes (b0 b1 b2 b3 : Nat) : JsFloat :=
  let sign : ℚ := if b0 &&& 0x80 ≠ 0 then -1 else 1
  let exp : Nat := (b0 % 128) * 2 + b1 / 128
  let mant : Nat := (b1 % 128) * 2^16 + b2 * 2^8 + b3
  if exp = 255 then
    if mant ≠ 0 then .nan else .inf (b0 &&& 0x80 ≠ 0)
  else if exp = 0 then
    .val (sign * mant * (2:ℚ)^(-(149:ℤ)))
  else
    .val (sign * ((2:ℚ)^(23:ℕ) + (mant : ℚ)) * (2:ℚ)^((exp : ℤ) - 150))

/-- `buffer.readDoubleBE`: IEEE-754 binary64 decode of eight bytes. -/
def float64FromBytes (b0 b1 b2 b3 b4 b5 b6 b7 : Nat) : JsFloat :=
  let sign : ℚ := if b0 &&& 0x80 ≠ 0 then -1 else 1
  let exp : Nat := (b0 % 128) * 16 + b1 / 16
  let mant : Nat := (b1 % 16) * 2^48 + b2 * 2^40 + b3 * 2^32 + b4 * 2^24 +
    b5 * 2^16 + b6 * 2^8 + b7
  if exp = 2047 then
    if mant ≠ 0 then .nan else .inf (b0 &&& 0x80 ≠ 0)
  else if exp = 0 then
    .val (sign * mant * (2:ℚ)^(-(1074:ℤ)))
  else
    .val (sign * ((2:ℚ)^(52:ℕ) + (mant : ℚ)) * (2:ℚ)^((exp : ℤ) - 1075))

/-- `decodeFloat()`: dispatch on the three float type bytes, with the
matching availability check before each fixed-width read. -/
def decodeFloat : DecodeM JsFloat := do
  let t ← peek
  if t = TYPE_FLOAT_16 then do
    ensureAvailable 3
    let b0 ← byteRel 1
    let b1 ← byteRel 2
    consume 3
    pure (parseHalf b0 b1)
  else if t = TYPE_FLOAT_32 then do
    ensureAvailable 5
    let b0 ← byteRel 1
    let b1 ← byteRel 2
    let b2 ← byteRel 3
    let b3 ← byteRel 4
    consume 5
    pure (float32FromBytes b0 b1 b2 b3)
  else if t = TYPE_FLOAT_64 then do
    ensureAvailable 9
    let b0 ← byteRel 1
    let b1 ← byteRel 2
    let b2 ← byteRel 3
    let b3 ← byteRel 4
    let b4 ← byteRel 5
    let b5 ← byteRel 6
    let b6 ← byteRel 7
    let b7 ← byteRel 8
    consume 9
    pure (float64FromBytes b0 b1 b2 b3 b4 b5 b6 b7)
  else
    DecodeM.throw .notFloat

/-! ### Byte/text streaming -/

/-- Append a slice `buffer.slice(start, start + n)` to the accumulating
stream buffer (`ByteStreamBuffer#write`, modelled from the spec as a plain
appender). -/
def sbufAppendSlice (n : Nat) : DecodeM Unit :=
  fun s => (.ok (), {s with sbuf := s.sbuf ++ (s.buffer.drop s.start).take n})

/-- Modelled from the spec: `ByteStreamBuffer#read` returns all accumulated
bytes and resets the accumulator. -/
def sbufRead : DecodeM (List Nat) :=
  fun s => (.ok s.sbuf, {s with sbuf := []})

/-- The body of `_decodeByteStringsInternal`, merged with its streaming loop
into a single fuel-indexed function: `some t` performs one run headed by the
type byte `t`; `none` is the stop-marker-terminated loop of the indefinite
case. -/
def bytesCore : Nat → Option Nat → DecodeM Unit
  | 0, _ => DecodeM.throw .outOfFuel
  | fuel+1, some t => do
    let len ← decodeValue t
    if !(len.looseEqInt (-1)) then do
      ensureAvailableLen len
      sbufAppendSlice (lenToNat len)
      consume (lenToNat len)
    else
      bytesCore fuel none
  | fuel+1, none => do
    let br ← tryDecodeBreak
    if br then
      pure ()
    else do
      let t ← peek
      bytesCore fuel (some t)
      bytesCore fuel none

/-- `decodeBytes()`: byte-string major type check, streaming decode into the
accumulator, then read everything out. -/
def decodeBytes (fuel : Nat) : DecodeM (List Nat) := do
  let t ← peek
  if !(isMajorType t TYPE_BYTES) then
    DecodeM.throw .notBytes
  else do
    bytesCore fuel (some t)
    sbufRead

/-- UTF-8 to UTF-16 code-unit decoding with U+FFFD replacement, fuel-indexed
so that the definition reduces in the kernel (each step consumes at least one
byte, so `length + 1` fuel always suffices). -/
def utf8Aux : Nat → List Nat → List Nat
  | 0, _ => []
  | _+1, [] => []
  | fuel+1, b :: rest =>
    if b < 0x80 then b :: utf8Aux fuel rest
    else if b < 0xc2 then 0xfffd :: utf8Aux fuel rest
    else if b < 0xe0 then
      match rest with
      | c :: rest2 =>
        if 0x80 ≤ c ∧ c < 0xc0 then
          ((b - 0xc0) * 64 + (c - 0x80)) :: utf8Aux fuel rest2
        else 0xfffd :: utf8Aux fuel rest
      | [] => [0xfffd]
    else if b < 0xf0 then
      match rest with
      | c :: rest2 =>
        if (if b = 0xe0 then 0xa0 ≤ c ∧ c < 0xc0
            else if b = 0xed then 0x80 ≤ c ∧ c < 0xa0
            else 0x80 ≤ c ∧ c < 0xc0) then
          match rest2 with
          | d :: rest3 =>
            if 0x80 ≤ d ∧ d < 0xc0 then
              ((b - 0xe0) * 4096 + (c - 0x80) * 64 + (d - 0x80)) :: utf8Aux fuel rest3
            else 0xfffd :: utf8Aux fuel rest2
          | [] => [0xfffd]
        else 0xfffd :: utf8Aux fuel rest
      | [] => [0xfffd]
    else if b < 0xf5 then
      match rest with
      | c :: rest2 =>
        if (if b = 0xf0 then 0x90 ≤ c ∧ c < 0xc0
            else if b = 0xf4 then 0x80 ≤ c ∧ c < 0x90
            else 0x80 ≤ c ∧ c < 0xc0) then
          match rest2 with
          | d :: rest3 =>
            if 0x80 ≤ d ∧ d < 0xc0 then
              match rest3 with
              | e :: rest4 =>
                if 0x80 ≤ e ∧ e < 0xc0 then
                  let cp := (b - 0xf0) * 262144 + (c - 0x80) * 4096 +
                    (d - 0x80) * 64 + (e - 0x80)
                  (0xd800 + (cp - 0x10000) / 1024) ::
                    (0xdc00 + (cp - 0x10000) % 1024) :: utf8Aux fuel rest4
                else 0xfffd :: utf8Aux fuel rest3
              | [] => [0xfffd]
            else 0xfffd :: utf8Aux fuel rest2
          | [] => [0xfffd]
        else 0xfffd :: utf8Aux fuel rest
      | [] => [0xfffd]
    else 0xfffd :: utf8Aux fuel rest

/-- UTF-8 to UTF-16 code-unit decoding with U+FFFD replacement, as performed
by the runtime's buffer-to-string conversion (`buffer.toString()`). -/
def utf8ToUtf16 (bs : List Nat) : List Nat :=
  utf8Aux (bs.length + 1) bs

/-- `ByteStreamBuffer#readAsString`: modelled from the spec: the accumulated
bytes decoded as UTF-8 text, resetting the accumulator. -/
def sbufReadAsString : DecodeM (List Nat) :=
  fun s => (.ok (utf8ToUtf16 s.sbuf), {s with sbuf := []})

/-- `decodeString()`. -/
def decodeString (fuel : Nat) : DecodeM (List Nat) := do
  let t ← peek
  if !(isMajorType t TYPE_UTF) then
    DecodeM.throw .notString
  else do
    bytesCore fuel (some t)
    sbufReadAsString

/-! ### Lengths, tags, integers -/

/-- `decodeArrayLength()`. -/
def decodeArrayLength : DecodeM NumVal := do
  let t ← peek
  if majorType t ≠ TYPE_ARRAY then
    DecodeM.throw .notArray
  else
    decodeValue t

/-- `decodeMapLength()`. -/
def decodeMapLength : DecodeM NumVal := do
  let t ← peek
  if majorType t ≠ TYPE_MAP then
    DecodeM.throw .notMap
  else
    decodeValue t

/-- `_decodeTag(t)`. -/
def decodeTag (t : Nat) : DecodeM NumVal :=
  if !(isMajorType t TYPE_TAG) then
    DecodeM.throw .notTag
  else
    decodeValue t

/-- Big-endian unsigned magnitude of a byte sequence, as obtained by parsing
the hex dump of the bytes in base 16. -/
def beBytesToNat (bs : List Nat) : Nat :=
  bs.foldl (fun a b => a * 256 + b) 0

/-- `new BigNumber(data.toString('hex'), 16)`: the hex dump of an empty
buffer is the empty string, which parses to NaN. -/
def bigNumFromHex (bs : List Nat) : BigNum :=
  if bs = [] then .nan else .int (beBytesToNat bs)

/-- `_decodeBigInt(tag)`. -/
def decodeBigInt (fuel : Nat) (tag : NumVal) : DecodeM Value := do
  if !(tag.looseEqInt TAG_POSBIGINT) && !(tag.looseEqInt TAG_NEGBIGINT) then
    DecodeM.throw .invalidBigIntTag
  else do
    let t ← peek
    if !(isMajorType t TYPE_BYTES) then
      DecodeM.throw .bigIntNotBinary
    else do
      let data ← decodeBytes fuel
      let val := bigNumFromHex data
      pure (.big (if tag.looseEqInt TAG_POSBIGINT then val else val.negSub1))

/-- `decodeInt()`: major-type dependent transform of the primitive value,
with delegation to the big-integer decoder for the two big-integer tags
(matched strictly by the `switch`). -/
def decodeInt (fuel : Nat) : DecodeM Value := do
  let t ← peek
  let mt := majorType t
  if mt ≠ TYPE_POSINT ∧ mt ≠ TYPE_NEGINT then
    if mt = TYPE_TAG then do
      let tag ← decodeTag t
      if tag.isNum TAG_POSBIGINT || tag.isNum TAG_NEGBIGINT then
        decodeBigInt fuel tag
      else
        DecodeM.throw .notInteger
    else
      DecodeM.throw .notInteger
  else do
    let v ← decodeValue t
    pure (if mt = TYPE_POSINT then v.toValue else
      match v with
      | .num z => .num (-z - 1)
      | .big b => .big b.negSub1)

/-- `-scale` on the result of `decodeInt`, as stored into the decimal
exponent slot: exact negation of a native number; a `BigNumber` is coerced
through its string to a double first; NaN (`none`) propagates. -/
def jsNegToExp : Value → Option ℤ
  | .num z => some (-z)
  | .big (.int z) => some (-(roundDouble z))
  | _ => none

/-- `_decodeDecimal(tag)`. -/
def decodeDecimal (fuel : Nat) (tag : NumVal) : DecodeM Value := do
  if !(tag.looseEqInt TAG_DECIMAL) then
    DecodeM.throw .wrongDecimalTag
  else do
    let size ← decodeArrayLength
    if !(size.looseEqInt 2) then
      DecodeM.throw .malformedDecimal
    else do
      let scale ← decodeInt fuel
      let u ← decodeInt fuel
      pure (.dec ⟨valueToBigNum u, jsNegToExp scale⟩)

/-- `decodeCbor()`: return a sub-decoder state wrapping nested CBOR sent as
bytes.  The definite branch carves a window out of the parent buffer; the
streaming branch gathers the chunks into a fresh buffer and leaves the
sub-decoder's `_limit` unset (`undefined`). -/
def decodeCbor (fuel : Nat) : DecodeM DecoderState := do
  let t ← peek
  if !(isMajorType t TYPE_BYTES) then
    DecodeM.throw .notCborBytes
  else if t ≠ TYPE_BYTES + SIZE_STREAM then do
    let len ← decodeValue t
    ensureAvailableLen len
    fun s =>
      (.ok ⟨s.buffer, s.start, some (s.start + lenToNat len), []⟩,
        {s with start := s.start + lenToNat len})
  else do
    let bs ← decodeBytes fuel
    pure ⟨bs, 0, none, []⟩

/-! ### JavaScript string conversion of decoded values

Plain JavaScript objects convert every property key to a string
(`ToPropertyKey`), so `buildMap` keys maps by `String(k)` of the decoded
key.  The conversion below is exact for null, booleans, integers, strings,
byte strings and `BigNumber` values.  For non-integral floats JavaScript
prints the shortest decimal that round-trips to the same double; the model
prints the exact (always terminating) decimal expansion of the value
instead, which agrees with JavaScript on the integral values that occur as
realistic map keys.  No theorem below depends on the digits chosen here. -/

/-- Decimal digits of a natural number as character code units. -/
def natUnitsAux : Nat → Nat → List Nat
  | 0, _ => []
  | f+1, n => if n < 10 then [48 + n] else natUnitsAux f (n / 10) ++ [48 + n % 10]

/-- Decimal digits of a natural number as character code units. -/
def natUnits (n : Nat) : List Nat := natUnitsAux (n+1) n

/-- `String(z)` for an integer-valued native number within the decimal
formatting range (`|z| < 10^21`). -/
def intUnits (z : ℤ) : List Nat :=
  if z < 0 then 45 :: natUnits (-z).toNat else natUnits z.toNat

/-- Drop trailing zero digits. -/
def trimZerosRight (ds : List Nat) : List Nat :=
  ((ds.reverse).dropWhile (fun d => d == 48)).reverse

/-- Positive-exponent scientific notation `d.ddd...e+k` for a natural number
with `len` digits, as printed for magnitudes at or above `10^21`. -/
def sciUnits (n : Nat) : List Nat :=
  match natUnits n with
  | [] => []
  | d :: tail =>
    let frac := trimZerosRight tail
    d :: (if frac = [] then [] else 46 :: frac) ++ [101, 43] ++ natUnits tail.length

/-- `BigNumber#toString()`: full-precision decimal, switching to scientific
notation at `10^21` (the default `EXPONENTIAL_AT` threshold). -/
def bigNumUnits : BigNum → List Nat
  | .nan => [78, 97, 78]
  | .int z =>
    if z < 0 then 45 :: bigNatUnits (-z).toNat else bigNatUnits z.toNat
where bigNatUnits (n : Nat) : List Nat :=
  if n < 10^21 then natUnits n else sciUnits n

/-- Digits of the fractional part of a non-negative rational, emitted until
the expansion terminates (always, for the dyadic values of doubles) or the
fuel runs out. -/
def fracUnitsAux : Nat → ℚ → List Nat
  | 0, _ => []
  | f+1, r =>
    if r = 0 then []
    else
      let r10 := r * 10
      let d := ⌊r10⌋
      (48 + d.toNat) :: fracUnitsAux f (r10 - d)

/-- Exact decimal rendering of a non-negative finite double value. -/
def posRatUnits (q : ℚ) : List Nat :=
  if q ≥ (10:ℚ)^(21:ℕ) then
    sciUnits ((q.num.toNat / q.den))
  else if q < (1 : ℚ) / 1000000 ∧ q ≠ 0 then
    let n := (q.num * 10^1200 / (q.den : ℤ)).toNat
    match natUnits n with
    | [] => [48]
    | d :: tail =>
      let frac := trimZerosRight tail
      d :: (if frac = [] then [] else 46 :: frac) ++ [101, 45] ++
        natUnits (1200 - tail.length)
  else
    let ip := ⌊q⌋
    let frac := fracUnitsAux 1200 (q - ip)
    natUnits ip.toNat ++ (if frac = [] then [] else 46 :: frac)

/-- `String(x)` of a native float value. -/
def jsFloatUnits : JsFloat → List Nat
  | .nan => [78, 97, 78]
  | .inf neg => if neg then 45 :: [73,110,102,105,110,105,116,121] else [73,110,102,105,110,105,116,121]
  | .val q => if q < 0 then 45 :: posRatUnits (-q) else posRatUnits q

/-- Modelled from the spec: the opaque decimal wrapper rendered as its
unscaled value and power-of-ten exponent. -/
def bigDecimalUnits (d : BigDecimal) : List Nat :=
  bigNumUnits d.unscaled ++ [101] ++
    (match d.exp10 with
     | none => [78, 97, 78]
     | some e => if e < 0 then 45 :: natUnits (-e).toNat else natUnits e.toNat)

mutual

/-- `String(v)` of a decoded value (`Array.prototype.toString` joins the
element strings with commas, rendering null elements as empty). -/
def keyToString : Value → List Nat
  | .null => [110, 117, 108, 108]
  | .bool true => [116, 114, 117, 101]
  | .bool false => [102, 97, 108, 115, 101]
  | .num z => intUnits z
  | .big b => bigNumUnits b
  | .dec d => bigDecimalUnits d
  | .float f => jsFloatUnits f
  | .bytes bs => utf8ToUtf16 bs
  | .str u => u
  | .arr vs => List.intercalate [44] (keyToStringList vs)
  | .map _ => [91, 111, 98, 106, 101, 99, 116, 32, 79, 98, 106, 101, 99, 116, 93]

/-- Element strings of an array, null elements rendered empty. -/
def keyToStringList : List Value → List (List Nat)
  | [] => []
  | .null :: rest => [] :: keyToStringList rest
  | v :: rest => keyToString v :: keyToStringList rest

end

/-! ### The recursive object decoder -/

/-- The optional tag-handler registry passed at construction: a map from tag
number to a handler receiving the tag (property lookup keyed by the tag
value). -/
def TagHandlers : Type := NumVal → Option (NumVal → DecodeM Value)

/-- The operations of the mutually recursive `decodeObject` family, packed
into one fuel-indexed interpreter: `obj` is `decodeObject`, `arr`/`map` are
`decodeArray`/`decodeMap` (via `buildArray`/`buildMap`), the loop operations
are the iteration state of `processArray`/`processMap` with the accumulated
result, and `tagged t` is `_decodeTaggedType(t)`. -/
inductive DOp where
  | obj : DOp
  | arr : DOp
  | map : DOp
  | tagged (t : Nat) : DOp
  | arrLoop (len : NumVal) (i : Nat) (acc : List Value) : DOp
  | mapLoop (len : NumVal) (i : Nat) (m : List (List Nat × Value)) : DOp

/-- The `decodeObject` family.  Loops compare the native counter `i` loosely
with the decoded length (`i != length`), so the `-1` stream sentinel never
matches and streaming containers run to their break marker;
`buildMap` rejects a key whose property-string is already present
(`hasOwnProperty`) with the duplicate-key error. -/
def decodeCore (H : TagHandlers) : Nat → DOp → DecodeM Value
  | 0, _ => DecodeM.throw .outOfFuel
  | fuel+1, .obj => do
    let isNull ← tryDecodeNull
    if isNull then pure .null else do
    let t ← peek
    if t = TYPE_NULL ∨ t = TYPE_UNDEFINED then do
      consume 1
      pure .null
    else if t = TYPE_TRUE then do
      consume 1
      pure (.bool true)
    else if t = TYPE_FALSE then do
      consume 1
      pure (.bool false)
    else if t = TYPE_FLOAT_16 ∨ t = TYPE_FLOAT_32 ∨ t = TYPE_FLOAT_64 then do
      let f ← decodeFloat
      pure (.float f)
    else if t = TYPE_BREAK then
      DecodeM.throw .unexpectedBreak
    else
      let mt := majorType t
      if mt = TYPE_POSINT ∨ mt = TYPE_NEGINT then
        decodeInt fuel
      else if mt = TYPE_BYTES then do
        let bs ← decodeBytes fuel
        pure (.bytes bs)
      else if mt = TYPE_UTF then do
        let u ← decodeString fuel
        pure (.str u)
      else if mt = TYPE_ARRAY then
        decodeCore H fuel .arr
      else if mt = TYPE_MAP then
        decodeCore H fuel .map
      else if mt = TYPE_TAG then
        decodeCore H fuel (.tagged t)
      else
        DecodeM.throw .unhandledType
  | fuel+1, .arr => do
    let len ← decodeArrayLength
    decodeCore H fuel (.arrLoop len 0 [])
  | fuel+1, .arrLoop len i acc =>
    if jsLooseEqNat i len then DecodeM.pure (.arr acc) else do
    let br ← tryDecodeBreak
    if br then pure (.arr acc) else do
    let v ← decodeCore H fuel .obj
    decodeCore H fuel (.arrLoop len (i+1) (acc ++ [v]))
  | fuel+1, .map => do
    let len ← decodeMapLength
    decodeCore H fuel (.mapLoop len 0 [])
  | fuel+1, .mapLoop len i m =>
    if jsLooseEqNat i len then DecodeM.pure (.map m) else do
    let br ← tryDecodeBreak
    if br then pure (.map m) else do
    let k ← decodeCore H fuel .obj
    let v ← decodeCore H fuel .obj
    let ks := keyToString k
    if m.any (fun e => e.1 == ks) then
      DecodeM.throw .duplicateKey
    else
      decodeCore H fuel (.mapLoop len (i+1) (m ++ [(ks, v)]))
  | fuel+1, .tagged t => do
    let tag ← decodeTag t
    if tag.isNum TAG_POSBIGINT || tag.isNum TAG_NEGBIGINT then
      decodeBigInt fuel tag
    else if tag.isNum TAG_DECIMAL then
      decodeDecimal fuel tag
    else
      match H tag with
      | some handler => handler tag
      | none => decodeCore H fuel .obj

/-- `decodeObject()`. -/
def decodeObject (H : TagHandlers) (fuel : Nat) : DecodeM Value :=
  decodeCore H fuel .obj

/-- `decodeArray()`. -/
def decodeArray (H : TagHandlers) (fuel : Nat) : DecodeM Value :=
  decodeCore H fuel .arr

/-- An empty tag-handler registry (no handlers supplied at construction). -/
def noHandlers : TagHandlers := fun _ => none

/-! ### Specification-side companions -/

/-- Header of the canonical definite-length byte-string encoding of a chunk
of `n` bytes: minimal-width length field for lengths below `2^32`. -/
def defBytesHeader (n : Nat) : List Nat :=
  if n < 24 then [TYPE_BYTES + n]
  else if n < 256 then [0x58, n]
  else if n < 65536 then [0x59, n / 256, n % 256]
  else [0x5a, n / 2^24 % 256, n / 2^16 % 256, n / 2^8 % 256, n % 256]

/-- Canonical definite-length byte-string encoding of a chunk (for stating
round-trip properties). -/
def encodeDefBytes (c : List Nat) : List Nat :=
  defBytesHeader c.length ++ c

/-! ### Availability and stepping lemmas -/

/-- At least `n` bytes remain before the limit (vacuous when the limit is
unset). -/
def availAtLeast (s : DecoderState) (n : ℤ) : Prop :=
  match s.limit with
  | none => True
  | some L => n ≤ (L : ℤ) - s.start

instance (s : DecoderState) (n : ℤ) : Decidable (availAtLeast s n) :=
  match h : s.limit with
  | none => .isTrue (by simp [availAtLeast, h])
  | some L => decidable_of_iff (n ≤ (L : ℤ) - s.start) (by simp [availAtLeast, h])

theorem ensureAvailable_eq (n : ℤ) (s : DecoderState) :
    ensureAvailable n s =
      if availAtLeast s n then (.ok (), s) else (.error .needMoreData, s) := by
  unfold ensureAvailable
  rcases h : s.limit with _ | L
  · simp [availAtLeast, h]
  · simp only [availAtLeast, h]
    split_ifs with h1 h2 h2 <;> first | rfl | omega

@[simp] theorem consume_apply (n : Nat) (s : DecoderState) :
    consume n s = (.ok (), {s with start := s.start + n}) := rfl

@[simp] theorem byteRel_apply (off : Nat) (s : DecoderState) :
    byteRel off s = (.ok (byteAt s.buffer (s.start + off)), s) := rfl

@[simp] theorem read16Rel_apply (off : Nat) (s : DecoderState) :
    read16Rel off s = (.ok (readUInt16BE s.buffer (s.start + off)), s) := rfl

@[simp] theorem read32Rel_apply (off : Nat) (s : DecoderState) :
    read32Rel off s = (.ok (readUInt32BE s.buffer (s.start + off)), s) := rfl

theorem peek_ok {s : DecoderState} (h : availAtLeast s 1) :
    peek s = (.ok (byteAt s.buffer s.start), s) := by
  unfold peek
  rw [DecodeM.bind_apply, ensureAvailable_eq, if_pos h]

/-! ### Double rounding -/

theorem bitlenAux_zero (f : Nat) : bitlenAux f 0 = 0 := by
  cases f <;> simp [bitlenAux]

theorem bitlenAux_succ (f n : Nat) (h : n ≠ 0) :
    bitlenAux (f+1) n = bitlenAux f (n/2) + 1 := by
  simp [bitlenAux, h]

theorem bitlenAux_bounds : ∀ f n, n ≤ f → 1 ≤ n →
    2 ^ (bitlenAux f n - 1) ≤ n ∧ n < 2 ^ bitlenAux f n := by
  intro f
  induction f with
  | zero => intro n h1 h2; omega
  | succ f ih =>
    intro n hn h1
    by_cases h2 : n = 1
    · subst h2
      have hv : bitlenAux (f+1) 1 = 1 := by
        simp [bitlenAux, bitlenAux_zero]
      rw [hv]
      norm_num
    · have hn2 : 2 ≤ n := by omega
      have hd : n / 2 ≤ f := by omega
      have hd1 : 1 ≤ n / 2 := by omega
      obtain ⟨ha, hb⟩ := ih (n / 2) hd hd1
      have hstep : bitlenAux (f+1) n = bitlenAux f (n/2) + 1 :=
        bitlenAux_succ f n (by omega)
      set L := bitlenAux f (n / 2) with hL
      have hL1 : 1 ≤ L := by
        by_contra hc
        have h0 : L = 0 := by omega
        rw [h0] at hb
        simp at hb
        omega
      rw [hstep]
      have hpow : 2 ^ L = 2 ^ (L - 1) * 2 := by
        conv_lhs => rw [show L = (L-1)+1 by omega]
        rw [pow_succ]
      have hpow2 : (2:Nat) ^ (L+1) = 2 ^ L * 2 := pow_succ 2 L
      constructor
      · simp only [Nat.add_sub_cancel]
        omega
      · omega

theorem bitlen_bounds (n : Nat) (h : 1 ≤ n) :
    2 ^ (bitlen n - 1) ≤ n ∧ n < 2 ^ bitlen n :=
  bitlenAux_bounds n n le_rfl h

theorem roundDoubleNat_of_le {n : Nat} (h : n ≤ 2^53) : roundDoubleNat n = n := by
  unfold roundDoubleNat
  rw [if_pos h]

theorem roundDoubleNat_ge {n : Nat} (h : 2^53 < n) : 2^53 ≤ roundDoubleNat n := by
  unfold roundDoubleNat
  rw [if_neg (by omega)]
  obtain ⟨hlow, hhigh⟩ := bitlen_bounds n (by omega)
  have hB : 54 ≤ bitlen n := by
    by_contra hc
    have h53 : bitlen n ≤ 53 := by omega
    have : (2:Nat) ^ bitlen n ≤ 2 ^ 53 := Nat.pow_le_pow_right (by norm_num) h53
    omega
  have hk1 : 1 ≤ bitlen n - 53 := by omega
  have hsplit : (2:Nat) ^ (bitlen n - 1) = 2 ^ 52 * 2 ^ (bitlen n - 53) := by
    rw [← pow_add]
    congr 1
    omega
  have hq : 2 ^ 52 ≤ n / 2 ^ (bitlen n - 53) := by
    rw [Nat.le_div_iff_mul_le (Nat.pos_pow_of_pos _ (by norm_num))]
    omega
  have hqk : 2 ^ 53 ≤ n / 2 ^ (bitlen n - 53) * 2 ^ (bitlen n - 53) := by
    calc (2:Nat) ^ 53 = 2 ^ 52 * 2 ^ 1 := by norm_num
    _ ≤ 2 ^ 52 * 2 ^ (bitlen n - 53) := by
        apply Nat.mul_le_mul_left
        exact Nat.pow_le_pow_right (by norm_num) hk1
    _ ≤ n / 2 ^ (bitlen n - 53) * 2 ^ (bitlen n - 53) := by
        apply Nat.mul_le_mul_right
        exact hq
  have hqk1 : n / 2 ^ (bitlen n - 53) * 2 ^ (bitlen n - 53) ≤
      (n / 2 ^ (bitlen n - 53) + 1) * 2 ^ (bitlen n - 53) := by
    apply Nat.mul_le_mul_right
    omega
  dsimp only
  split_ifs <;> omega

theorem roundDouble_of_nonneg_le {z : ℤ} (h0 : 0 ≤ z) (h : z ≤ 2^53) :
    roundDouble z = z := by
  unfold roundDouble
  rw [if_neg (by omega)]
  rw [roundDoubleNat_of_le (by omega)]
  omega

theorem roundDouble_nonneg {z : ℤ} (h0 : 0 ≤ z) : 0 ≤ roundDouble z := by
  unfold roundDouble
  rw [if_neg (by omega)]
  positivity

theorem roundDouble_ge {z : ℤ} (h : 2^53 ≤ z) : 2^53 ≤ roundDouble z := by
  rcases eq_or_lt_of_le h with h1 | h1
  · rw [roundDouble_of_nonneg_le (by omega) (by omega)]
    omega
  · unfold roundDouble
    rw [if_neg (by omega)]
    have := roundDoubleNat_ge (n := z.toNat) (by omega)
    omega

theorem inSafeIntegerRange_iff {z : ℤ} (h0 : 0 ≤ z) :
    inSafeIntegerRange z = true ↔ z ≤ 2^53 - 1 := by
  unfold inSafeIntegerRange
  rw [Bool.and_eq_true, decide_eq_true_eq, decide_eq_true_eq]
  constructor
  · rintro ⟨-, h2⟩
    by_contra hc
    have : (2:ℤ)^53 ≤ z := by omega
    have := roundDouble_ge this
    omega
  · intro h1
    rw [roundDouble_of_nonneg_le h0 (by omega)]
    constructor <;> omega

instance {ε α : Type} [DecidableEq ε] [DecidableEq α] : DecidableEq (Except ε α)
  | .ok a, .ok b =>
    if h : a = b then .isTrue (by rw [h]) else .isFalse (by intro hc; cases hc; exact h rfl)
  | .ok _, .error _ => .isFalse (fun hc => Except.noConfusion hc)
  | .error _, .ok _ => .isFalse (fun hc => Except.noConfusion hc)
  | .error e, .error f =>
    if h : e = f then .isTrue (by rw [h]) else .isFalse (by intro hc; cases hc; exact h rfl)

/-! ### Branch lemmas for the primitive value reader -/

theorem decodeValue_inline (v : Nat) (s : DecoderState) (h : minorType v < SIZE_8) :
    decodeValue v s = (.ok (.num (minorType v)), {s with start := s.start + 1}) := by
  unfold decodeValue
  dsimp only
  rw [if_pos h]
  simp

theorem decodeValue_size8 (v : Nat) (s : DecoderState) (h : minorType v = SIZE_8) :
    decodeValue v s =
      if availAtLeast s 2 then
        (.ok (.num (byteAt s.buffer (s.start + 1))), {s with start := s.start + 2})
      else (.error .needMoreData, s) := by
  unfold decodeValue
  dsimp only
  rw [if_neg (by rw [h]; omega), if_pos h]
  simp only [DecodeM.bind_eq, DecodeM.bind_apply, ensureAvailable_eq]
  split_ifs with ha
  · simp
  · rfl

theorem decodeValue_size16 (v : Nat) (s : DecoderState) (h : minorType v = SIZE_16) :
    decodeValue v s =
      if availAtLeast s 3 then
        (.ok (.num (readUInt16BE s.buffer (s.start + 1))), {s with start := s.start + 3})
      else (.error .needMoreData, s) := by
  unfold decodeValue
  dsimp only
  rw [if_neg (by rw [h]; decide), if_neg (by rw [h]; decide), if_pos h]
  simp only [DecodeM.bind_eq, DecodeM.bind_apply, ensureAvailable_eq]
  split_ifs with ha
  · simp
  · rfl

theorem decodeValue_size32 (v : Nat) (s : DecoderState) (h : minorType v = SIZE_32) :
    decodeValue v s =
      if availAtLeast s 5 then
        (.ok (.num (readUInt32BE s.buffer (s.start + 1))), {s with start := s.start + 5})
      else (.error .needMoreData, s) := by
  unfold decodeValue
  dsimp only
  rw [if_neg (by rw [h]; decide), if_neg (by rw [h]; decide), if_neg (by rw [h]; decide),
    if_pos h]
  simp only [DecodeM.bind_eq, DecodeM.bind_apply, ensureAvailable_eq]
  split_ifs with ha
  · simp
  · rfl

theorem decodeValue_size64 (v : Nat) (s : DecoderState) (h : minorType v = SIZE_64) :
    decodeValue v s =
      if availAtLeast s 9 then
        (.ok (if inSafeIntegerRange ((readUInt32BE s.buffer (s.start + 1) : ℤ) * SHIFT32 +
                (readUInt32BE s.buffer (s.start + 5) : ℤ))
              then .num ((readUInt32BE s.buffer (s.start + 1) : ℤ) * SHIFT32 +
                (readUInt32BE s.buffer (s.start + 5) : ℤ))
              else .big (.int ((readUInt32BE s.buffer (s.start + 1) : ℤ) * SHIFT32 +
                (readUInt32BE s.buffer (s.start + 5) : ℤ)))),
          {s with start := s.start + 9})
      else (.error .needMoreData, s) := by
  unfold decodeValue
  dsimp only
  rw [if_neg (by rw [h]; decide), if_neg (by rw [h]; decide), if_neg (by rw [h]; decide),
    if_neg (by rw [h]; decide), if_pos h]
  simp only [DecodeM.bind_eq, DecodeM.bind_apply, ensureAvailable_eq]
  by_cases ha : availAtLeast s 9
  · rw [if_pos ha, if_pos ha]
    simp
  · rw [if_neg ha, if_neg ha]

theorem decodeValue_stream (v : Nat) (s : DecoderState) (h : minorType v = SIZE_STREAM) :
    decodeValue v s = (.ok (.num (-1)), {s with start := s.start + 1}) := by
  unfold decodeValue
  dsimp only
  rw [if_neg (by rw [h]; decide), if_neg (by rw [h]; decide), if_neg (by rw [h]; decide),
    if_neg (by rw [h]; decide), if_neg (by rw [h]; decide), if_pos h]
  simp

theorem decodeValue_invalid (v : Nat) (s : DecoderState)
    (h1 : SIZE_8 ≤ minorType v) (h2 : minorType v ≠ SIZE_8) (h3 : minorType v ≠ SIZE_16)
    (h4 : minorType v ≠ SIZE_32) (h5 : minorType v ≠ SIZE_64) (h6 : minorType v ≠ SIZE_STREAM) :
    decodeValue v s = (.error .invalidSize, s) := by
  unfold decodeValue
  dsimp only
  rw [if_neg (by omega), if_neg h2, if_neg h3, if_neg h4, if_neg h5, if_neg h6]
  rfl

/-! ### Claim theorems C1-C3 -/

/-- Claim C2: for every buffer state and every type byte, when the primitive
value reader raises the Incomplete condition it leaves the read offset
unchanged, and when it succeeds it consumes exactly
`1 + extension_byte_count` bytes: a single primitive field is never
partially consumed. -/
theorem c2_decodeValue_cursor (v : Nat) (s : DecoderState) :
    ((decodeValue v s).1 = .error .needMoreData → (decodeValue v s).2.start = s.start) ∧
    (∀ r s', decodeValue v s = (.ok r, s') →
      s'.start = s.start + 1 + extensionBytes (minorType v)) := by
  have hm : minorType v < 32 := Nat.mod_lt _ (by norm_num)
  by_cases h0 : minorType v < SIZE_8
  · rw [decodeValue_inline v s h0]
    constructor
    · intro h
      simp at h
    · intro r s' h
      have hs := congrArg Prod.snd h
      simp at hs
      rw [← hs]
      simp [extensionBytes, h0]
  · by_cases h8 : minorType v = SIZE_8
    · rw [decodeValue_size8 v s h8]
      split_ifs with ha
      · constructor
        · intro h
          simp at h
        · intro r s' h
          have hs := congrArg Prod.snd h
          simp at hs
          rw [← hs]
          simp [extensionBytes, h8, SIZE_8]
      · constructor
        · intro _
          rfl
        · intro r s' h
          simp at h
    · by_cases h16 : minorType v = SIZE_16
      · rw [decodeValue_size16 v s h16]
        split_ifs with ha
        · constructor
          · intro h
            simp at h
          · intro r s' h
            have hs := congrArg Prod.snd h
            simp at hs
            rw [← hs]
            simp [extensionBytes, h16, SIZE_8, SIZE_16]
        · constructor
          · intro _
            rfl
          · intro r s' h
            simp at h
      · by_cases h32 : minorType v = SIZE_32
        · rw [decodeValue_size32 v s h32]
          split_ifs with ha
          · constructor
            · intro h
              simp at h
            · intro r s' h
              have hs := congrArg Prod.snd h
              simp at hs
              rw [← hs]
              simp [extensionBytes, h32, SIZE_8, SIZE_16, SIZE_32]
          · constructor
            · intro _
              rfl
            · intro r s' h
              simp at h
        · by_cases h64 : minorType v = SIZE_64
          · rw [decodeValue_size64 v s h64]
            by_cases ha : availAtLeast s 9
            · rw [if_pos ha]
              constructor
              · intro h
                simp at h
              · intro r s' h
                have hs := congrArg Prod.snd h
                simp at hs
                rw [← hs]
                simp [extensionBytes, h64, SIZE_8, SIZE_16, SIZE_32, SIZE_64]
            · rw [if_neg ha]
              constructor
              · intro _
                rfl
              · intro r s' h
                simp at h
          · by_cases h31 : minorType v = SIZE_STREAM
            · rw [decodeValue_stream v s h31]
              constructor
              · intro h
                simp at h
              · intro r s' h
                have hs := congrArg Prod.snd h
                simp at hs
                rw [← hs]
                simp [extensionBytes, h31, SIZE_8, SIZE_16, SIZE_32, SIZE_64, SIZE_STREAM]
            · rw [decodeValue_invalid v s (by omega) h8 h16 h32 h64 h31]
              constructor
              · intro h
                simp at h
              · intro r s' h
                simp at h

/-- Witness for C2: a truncated 2-byte-extension field raises Incomplete with
the offset untouched, and a complete 1-byte-extension field consumes exactly
`1 + 1` bytes. -/
theorem c2_witness :
    ((decodeValue 0x19 ⟨[0x19, 1], 0, some 2, []⟩).1 = .error .needMoreData ∧
      (decodeValue 0x19 ⟨[0x19, 1], 0, some 2, []⟩).2.start = 0) ∧
    (decodeValue 0x18 ⟨[0x18, 5], 0, some 2, []⟩ = (.ok (.num 5), ⟨[0x18, 5], 2, some 2, []⟩) ∧
      (2 : Nat) = 0 + 1 + extensionBytes (minorType 0x18)) :=
  ⟨⟨by decide, (c2_decodeValue_cursor 0x19 ⟨[0x19, 1], 0, some 2, []⟩).1 (by decide)⟩,
    ⟨by decide, by
      have := (c2_decodeValue_cursor 0x18 ⟨[0x18, 5], 0, some 2, []⟩).2 (.num 5)
        ⟨[0x18, 5], 2, some 2, []⟩ (by decide)
      simpa using this⟩⟩

/-- Claim C1: with the 8-byte extension selected and at least 9 bytes
available, the primitive value reader returns exactly
`high * 2^32 + low` from the two big-endian 32-bit halves, as a native
number when the value is at most `2^53 - 1` and as an arbitrary-precision
integer otherwise, consuming 9 bytes. -/
theorem c1_size64_exact (v : Nat) (s : DecoderState) (h : minorType v = SIZE_64)
    (havail : availAtLeast s 9) :
    decodeValue v s =
      (.ok (if (readUInt32BE s.buffer (s.start + 1) : ℤ) * 2^32 +
              (readUInt32BE s.buffer (s.start + 5) : ℤ) ≤ 2^53 - 1
            then .num ((readUInt32BE s.buffer (s.start + 1) : ℤ) * 2^32 +
              (readUInt32BE s.buffer (s.start + 5) : ℤ))
            else .big (.int ((readUInt32BE s.buffer (s.start + 1) : ℤ) * 2^32 +
              (readUInt32BE s.buffer (s.start + 5) : ℤ)))),
        {s with start := s.start + 9}) := by
  rw [decodeValue_size64 v s h, if_pos havail]
  have h0 : (0:ℤ) ≤ (readUInt32BE s.buffer (s.start + 1) : ℤ) * SHIFT32 +
      (readUInt32BE s.buffer (s.start + 5) : ℤ) := by
    unfold SHIFT32
    positivity
  by_cases hc : (readUInt32BE s.buffer (s.start + 1) : ℤ) * SHIFT32 +
      (readUInt32BE s.buffer (s.start + 5) : ℤ) ≤ 2^53 - 1
  · rw [if_pos ((inSafeIntegerRange_iff h0).2 hc)]
    rw [if_pos (by simpa [SHIFT32] using hc)]
    simp [SHIFT32]
  · have : ¬ inSafeIntegerRange ((readUInt32BE s.buffer (s.start + 1) : ℤ) * SHIFT32 +
        (readUInt32BE s.buffer (s.start + 5) : ℤ)) = true := by
      intro hcontra
      exact hc ((inSafeIntegerRange_iff h0).1 hcontra)
    rw [if_neg this]
    rw [if_neg (by simpa [SHIFT32] using hc)]
    simp [SHIFT32]

/-- Witness for C1: the boundary values `2^53 - 1` and `2^53` are both
decoded exactly, the first as a native number, the second as an
arbitrary-precision integer. -/
theorem c1_witness :
    decodeValue 0x1b ⟨[0x1b, 0, 0x1f, 0xff, 0xff, 0xff, 0xff, 0xff, 0xff], 0, some 9, []⟩ =
      (.ok (.num 9007199254740991),
        ⟨[0x1b, 0, 0x1f, 0xff, 0xff, 0xff, 0xff, 0xff, 0xff], 9, some 9, []⟩) ∧
    decodeValue 0x1b ⟨[0x1b, 0, 0x20, 0, 0, 0, 0, 0, 0], 0, some 9, []⟩ =
      (.ok (.big (.int 9007199254740992)),
        ⟨[0x1b, 0, 0x20, 0, 0, 0, 0, 0, 0], 9, some 9, []⟩) :=
  ⟨(c1_size64_exact 0x1b ⟨[0x1b, 0, 0x1f, 0xff, 0xff, 0xff, 0xff, 0xff, 0xff], 0, some 9, []⟩
      (by decide) (by decide)).trans (by decide),
    (c1_size64_exact 0x1b ⟨[0x1b, 0, 0x20, 0, 0, 0, 0, 0, 0], 0, some 9, []⟩
      (by decide) (by decide)).trans (by decide)⟩

/-- The negative-integer transform `-magnitude - 1`, applied with the
arbitrary-precision negate-and-subtract when the magnitude is a big
integer. -/
def negIntTransform : NumVal → Value
  | .num z => .num (-z - 1)
  | .big b => .big b.negSub1

/-- Claim C3: `decodeInt` returns the encoded magnitude `m` for the
unsigned-integer major type and `-m-1` for the negative-integer major type
(with arbitrary-precision negate-and-subtract when the magnitude is a big
integer), and fails for a type byte whose major type is neither of these
and is not a big-integer tag. -/
theorem c3_decodeInt :
    (∀ fuel s t m s', availAtLeast s 1 → byteAt s.buffer s.start = t →
      majorType t = TYPE_POSINT → decodeValue t s = (.ok m, s') →
      decodeInt fuel s = (.ok m.toValue, s')) ∧
    (∀ fuel s t m s', availAtLeast s 1 → byteAt s.buffer s.start = t →
      majorType t = TYPE_NEGINT → decodeValue t s = (.ok m, s') →
      decodeInt fuel s = (.ok (negIntTransform m), s')) ∧
    (∀ fuel s t, availAtLeast s 1 → byteAt s.buffer s.start = t →
      majorType t ≠ TYPE_POSINT → majorType t ≠ TYPE_NEGINT → majorType t ≠ TYPE_TAG →
      (decodeInt fuel s).1 = .error .notInteger) ∧
    (∀ fuel s t tag s1, availAtLeast s 1 → byteAt s.buffer s.start = t →
      majorType t = TYPE_TAG → decodeValue t s = (.ok tag, s1) →
      tag.isNum TAG_POSBIGINT = false → tag.isNum TAG_NEGBIGINT = false →
      (decodeInt fuel s).1 = .error .notInteger) := by
  refine ⟨?_, ?_, ?_, ?_⟩
  · intro fuel s t m s' hav hb hmt hdv
    unfold decodeInt
    simp only [DecodeM.bind_eq, DecodeM.bind_apply]
    rw [peek_ok hav, hb]
    dsimp only
    rw [if_neg (by simp [hmt])]
    simp only [DecodeM.bind_eq, DecodeM.bind_apply]
    rw [hdv]
    simp only [DecodeM.pure_eq, DecodeM.pure_apply]
    rw [if_pos hmt]
  · intro fuel s t m s' hav hb hmt hdv
    unfold decodeInt
    simp only [DecodeM.bind_eq, DecodeM.bind_apply]
    rw [peek_ok hav, hb]
    dsimp only
    rw [if_neg (by simp [hmt, TYPE_NEGINT, TYPE_POSINT])]
    simp only [DecodeM.bind_eq, DecodeM.bind_apply]
    rw [hdv]
    simp only [DecodeM.pure_eq, DecodeM.pure_apply]
    rw [if_neg (by rw [hmt]; decide)]
    cases m <;> rfl
  · intro fuel s t hav hb h1 h2 h3
    unfold decodeInt
    simp only [DecodeM.bind_eq, DecodeM.bind_apply]
    rw [peek_ok hav, hb]
    dsimp only
    rw [if_pos ⟨h1, h2⟩, if_neg h3]
    rfl
  · intro fuel s t tag s1 hav hb hmt hdv h2 h3
    unfold decodeInt
    simp only [DecodeM.bind_eq, DecodeM.bind_apply]
    rw [peek_ok hav, hb]
    dsimp only
    rw [if_pos (by rw [hmt]; exact ⟨by decide, by decide⟩), if_pos hmt]
    unfold decodeTag
    rw [if_neg (by simp [isMajorType, hmt])]
    simp only [DecodeM.bind_eq, DecodeM.bind_apply]
    rw [hdv]
    dsimp only
    rw [h2, h3]
    rfl

/-- Witness for C3: an inline unsigned integer decodes to itself, an inline
negative integer to `-m-1`, a byte-string type byte fails, and an
unrecognized tag fails. -/
theorem c3_witness :
    decodeInt 1 ⟨[0x01], 0, some 1, []⟩ = (.ok (.num 1), ⟨[0x01], 1, some 1, []⟩) ∧
    decodeInt 1 ⟨[0x20], 0, some 1, []⟩ = (.ok (.num (-1)), ⟨[0x20], 1, some 1, []⟩) ∧
    (decodeInt 1 ⟨[0x40], 0, some 1, []⟩).1 = .error .notInteger ∧
    (decodeInt 1 ⟨[0xc5], 0, some 1, []⟩).1 = .error .notInteger :=
  ⟨c3_decodeInt.1 1 ⟨[0x01], 0, some 1, []⟩ 0x01 (.num 1) ⟨[0x01], 1, some 1, []⟩
      (by decide) (by decide) (by decide) (by decide),
    c3_decodeInt.2.1 1 ⟨[0x20], 0, some 1, []⟩ 0x20 (.num 0) ⟨[0x20], 1, some 1, []⟩
      (by decide) (by decide) (by decide) (by decide),
    c3_decodeInt.2.2.1 1 ⟨[0x40], 0, some 1, []⟩ 0x40
      (by decide) (by decide) (by decide) (by decide) (by decide),
    c3_decodeInt.2.2.2 1 ⟨[0xc5], 0, some 1, []⟩ 0xc5 (.num 5) ⟨[0xc5], 1, some 1, []⟩
      (by decide) (by decide) (by decide) (by decide) (by decide) (by decide)⟩

/-! ### Claim C8: half-precision decode -/

set_option maxRecDepth 10000

theorem land128_lemma : ∀ b, b < 256 → b &&& 128 = 128 * (b / 128) := by decide

theorem land124_shift : ∀ b, b < 256 → (b &&& 124) >>> 2 = b / 4 % 32 := by decide

theorem land3_lemma : ∀ b, b < 256 → b &&& 3 = b % 4 := by decide

theorem shiftor_lemma : ∀ a, a < 4 → ∀ c, c < 256 → (a <<< 8) ||| c = a * 256 + c := by decide

/-- Claim C8: for a half-precision payload with sign bit `s`, 5-bit exponent
`e` and 10-bit mantissa `m`, `_parseHalf` returns `sign * 2^-24 * m` when
`e = 0`, a signed infinity when `e = 31` and `m = 0`, NaN when `e = 31` and
`m ≠ 0`, and `sign * 2^(e-25) * (1024 + m)` otherwise, where `sign` is `-1`
when the sign bit is set and `+1` otherwise. -/
theorem c8_parseHalf (sb : Bool) (e m : Nat) (he : e < 32) (hm : m < 1024) :
    parseHalf (cond sb 128 0 + 4 * e + m / 256) (m % 256) =
      (if e = 0 then .val (cond sb (-1) 1 * (2:ℚ)^(-(24:ℤ)) * m)
       else if e = 31 then (if m = 0 then .inf sb else .nan)
       else .val (cond sb (-1) 1 * (2:ℚ)^((e : ℤ) - 25) * (1024 + m))) := by
  cases sb
  · simp only [Bool.cond_false, Nat.zero_add]
    unfold parseHalf
    dsimp only
    rw [land124_shift _ (by omega), land3_lemma _ (by omega),
      shiftor_lemma _ (by omega) _ (by omega)]
    have hsign : 4 * e + m / 256 &&& 128 = 0 := by
      rw [land128_lemma _ (by omega)]
      omega
    have hexp : (4 * e + m / 256) / 4 % 32 = e := by omega
    have hmant : (4 * e + m / 256) % 4 * 256 + m % 256 = m := by omega
    rw [hsign, hexp, hmant]
    norm_num [ite_not]
  · simp only [Bool.cond_true]
    unfold parseHalf
    dsimp only
    rw [land124_shift _ (by omega), land3_lemma _ (by omega),
      shiftor_lemma _ (by omega) _ (by omega)]
    have hsign : 128 + 4 * e + m / 256 &&& 128 = 128 := by
      rw [land128_lemma _ (by omega)]
      omega
    have hexp : (128 + 4 * e + m / 256) / 4 % 32 = e := by omega
    have hmant : (128 + 4 * e + m / 256) % 4 * 256 + m % 256 = m := by omega
    rw [hsign, hexp, hmant]
    norm_num [ite_not]

/-- Witness for C8: a normal value (`1.0`), a subnormal value, a signed
infinity and a NaN bit pattern. -/
theorem c8_witness :
    parseHalf 0x3c 0x00 = .val 1 ∧
    parseHalf 0x80 0x01 = .val (-(2:ℚ)^(-(24:ℤ))) ∧
    parseHalf 0xfc 0x00 = .inf true ∧
    parseHalf 0x7c 0x05 = .nan :=
  ⟨(c8_parseHalf false 15 0 (by decide) (by decide)).trans (by norm_num),
    (c8_parseHalf true 0 1 (by decide) (by decide)).trans (by norm_num),
    (c8_parseHalf true 31 0 (by decide) (by decide)).trans (by norm_num),
    (c8_parseHalf false 31 5 (by decide) (by decide)).trans (by norm_num)⟩

/-! ### Stepping lemmas for the simple-value readers -/

theorem tryDecodeNull_eq (s : DecoderState) (hav : availAtLeast s 1) :
    tryDecodeNull s =
      if byteAt s.buffer s.start = TYPE_NULL
      then (.ok true, {s with start := s.start + 1})
      else (.ok false, s) := by
  unfold tryDecodeNull
  simp only [DecodeM.bind_eq, DecodeM.bind_apply]
  rw [peek_ok hav]
  dsimp only
  by_cases h : byteAt s.buffer s.start = TYPE_NULL
  · rw [if_pos h]
    simp [h]
  · rw [if_neg h]
    simp [h]

theorem tryDecodeBreak_eq (s : DecoderState) (hav : availAtLeast s 1) :
    tryDecodeBreak s =
      if byteAt s.buffer s.start = TYPE_BREAK
      then (.ok true, {s with start := s.start + 1})
      else (.ok false, s) := by
  unfold tryDecodeBreak
  simp only [DecodeM.bind_eq, DecodeM.bind_apply]
  rw [peek_ok hav]
  dsimp only
  by_cases h : byteAt s.buffer s.start = TYPE_BREAK
  · rw [if_pos h]
    simp [h]
  · rw [if_neg h]
    simp [h]

/-! ### Claims C9 and C10 -/

/-- Claim C9: `decodeObject` decodes the simple value `undefined` to null,
the same result as for the null type byte, consuming exactly one byte; the
decoded-value model has no separate undefined variant. -/
theorem c9_undefined_is_null (H : TagHandlers) (fuel : Nat) (s : DecoderState)
    (hav : availAtLeast s 1) :
    (byteAt s.buffer s.start = TYPE_UNDEFINED →
      decodeObject H (fuel+1) s = (.ok .null, {s with start := s.start + 1})) ∧
    (byteAt s.buffer s.start = TYPE_NULL →
      decodeObject H (fuel+1) s = (.ok .null, {s with start := s.start + 1})) := by
  constructor
  · intro hb
    unfold decodeObject
    simp only [decodeCore]
    simp only [DecodeM.bind_eq, DecodeM.bind_apply]
    rw [tryDecodeNull_eq s hav, if_neg (by rw [hb]; decide)]
    dsimp only
    simp only [Bool.false_eq_true, if_false]
    simp only [DecodeM.bind_eq, DecodeM.bind_apply]
    rw [peek_ok hav, hb]
    dsimp only
    rw [if_pos (show TYPE_UNDEFINED = TYPE_NULL ∨ TYPE_UNDEFINED = TYPE_UNDEFINED from
      Or.inr rfl)]
    simp
  · intro hb
    unfold decodeObject
    simp only [decodeCore]
    simp only [DecodeM.bind_eq, DecodeM.bind_apply]
    rw [tryDecodeNull_eq s hav, if_pos hb]
    dsimp only
    simp

/-- Witness for C9: the undefined byte and the null byte decode to the same
null value. -/
theorem c9_witness :
    decodeObject noHandlers 3 ⟨[0xf7], 0, some 1, []⟩ = (.ok .null, ⟨[0xf7], 1, some 1, []⟩) ∧
    decodeObject noHandlers 3 ⟨[0xf6], 0, some 1, []⟩ = (.ok .null, ⟨[0xf6], 1, some 1, []⟩) :=
  ⟨(c9_undefined_is_null noHandlers 2 ⟨[0xf7], 0, some 1, []⟩ (by decide)).1 (by decide),
    (c9_undefined_is_null noHandlers 2 ⟨[0xf6], 0, some 1, []⟩ (by decide)).2 (by decide)⟩

/-- Claim C10: after `decodeCbor` on an indefinite-length nested byte string
the returned sub-decoder's limit is unset, and the availability check (for
native counts as well as decoded lengths) passes vacuously on every state
with an unset limit for every requested count, so no read on such a state
raises the Incomplete condition. -/
theorem c10_decodeCbor_stream (fuel : Nat) (s : DecoderState) (bs : List Nat)
    (s1 : DecoderState) (hav : availAtLeast s 1)
    (hb : byteAt s.buffer s.start = TYPE_BYTES + SIZE_STREAM)
    (hbytes : decodeBytes fuel s = (.ok bs, s1)) :
    decodeCbor fuel s = (.ok ⟨bs, 0, none, []⟩, s1) ∧
    (∀ (n : ℤ) (s2 : DecoderState), s2.limit = none → ensureAvailable n s2 = (.ok (), s2)) ∧
    (∀ (len : NumVal) (s2 : DecoderState), s2.limit = none →
      ensureAvailableLen len s2 = (.ok (), s2)) := by
  refine ⟨?_, ?_, ?_⟩
  · unfold decodeCbor
    simp only [DecodeM.bind_eq, DecodeM.bind_apply]
    rw [peek_ok hav, hb]
    dsimp only
    rw [if_neg (by decide), if_neg (by simp)]
    simp only [DecodeM.bind_eq, DecodeM.bind_apply]
    rw [hbytes]
    rfl
  · intro n s2 h2
    unfold ensureAvailable
    rw [h2]
  · intro len s2 h2
    unfold ensureAvailableLen
    rw [h2]

/-- Witness for C10: a one-chunk streamed nested buffer yields a sub-decoder
with no limit, and its availability check passes even for a count far beyond
the gathered bytes. -/
theorem c10_witness :
    decodeCbor 5 ⟨[0x5f, 0x41, 7, 0xff], 0, some 4, []⟩ =
      (.ok ⟨[7], 0, none, []⟩, ⟨[0x5f, 0x41, 7, 0xff], 4, some 4, []⟩) ∧
    ensureAvailable 1000000 ⟨[7], 0, none, []⟩ = (.ok (), ⟨[7], 0, none, []⟩) :=
  ⟨(c10_decodeCbor_stream 5 ⟨[0x5f, 0x41, 7, 0xff], 0, some 4, []⟩ [7]
      ⟨[0x5f, 0x41, 7, 0xff], 4, some 4, []⟩ (by decide) (by decide) (by decide)).1,
    (c10_decodeCbor_stream 5 ⟨[0x5f, 0x41, 7, 0xff], 0, some 4, []⟩ [7]
      ⟨[0x5f, 0x41, 7, 0xff], 4, some 4, []⟩ (by decide) (by decide) (by decide)).2.1
      1000000 ⟨[7], 0, none, []⟩ rfl⟩

/-! ### Claim C4: big-integer tags -/

theorem peek_state (s : DecoderState) : (peek s).2 = s := by
  unfold peek
  simp only [DecodeM.bind_apply, ensureAvailable_eq]
  split_ifs <;> rfl

/-- Counterexample for C4 as stated: the positive-big-integer tag over the
empty byte string decodes to the arbitrary-precision NaN (the hex dump of an
empty buffer is the empty string, which `BigNumber` parses to NaN), not to
the integer 0, the big-endian magnitude of the empty string. -/
theorem c4_counterexample :
    decodeObject noHandlers 10 ⟨[0xc2, 0x40], 0, some 2, []⟩ =
      (.ok (.big .nan), ⟨[0xc2, 0x40], 2, some 2, []⟩) ∧
    Value.big .nan ≠ Value.big (.int 0) :=
  ⟨by rfl, by simp⟩

/-- Claim C4 (amended): for a positive-big-integer tag followed by a
**nonempty** byte string `b`, decoding returns the arbitrary-precision
integer whose big-endian unsigned magnitude is `b`, and the
negative-big-integer tag returns `-(magnitude+1)`; a following item that is
not a byte string fails. -/
theorem c4_decodeBigInt_amended :
    (∀ fuel s bs s', decodeBytes fuel s = (.ok bs, s') → bs ≠ [] → (∀ b ∈ bs, b < 256) →
      decodeBigInt fuel (.num TAG_POSBIGINT) s = (.ok (.big (.int (beBytesToNat bs))), s') ∧
      decodeBigInt fuel (.num TAG_NEGBIGINT) s =
        (.ok (.big (.int (-(beBytesToNat bs) - 1))), s')) ∧
    (∀ fuel s t, availAtLeast s 1 → byteAt s.buffer s.start = t →
      majorType t ≠ TYPE_BYTES →
      (decodeBigInt fuel (.num TAG_POSBIGINT) s).1 = .error .bigIntNotBinary ∧
      (decodeBigInt fuel (.num TAG_NEGBIGINT) s).1 = .error .bigIntNotBinary) := by
  constructor
  · intro fuel s bs s' hdb hne hbytes
    have hstep := hdb
    unfold decodeBytes at hstep
    simp only [DecodeM.bind_eq, DecodeM.bind_apply] at hstep
    rcases hpk : peek s with ⟨res, s0⟩
    have hs0 : s0 = s := by
      have := peek_state s
      rw [hpk] at this
      exact this
    subst hs0
    rw [hpk] at hstep
    cases res with
    | error e => simp at hstep
    | ok t =>
      dsimp only at hstep
      by_cases hmt : isMajorType t TYPE_BYTES
      · rw [if_neg (by simp [hmt])] at hstep
        constructor
        · unfold decodeBigInt
          rw [if_neg (by decide)]
          simp only [DecodeM.bind_eq, DecodeM.bind_apply]
          rw [hpk]
          dsimp only
          rw [if_neg (by simp [hmt])]
          simp only [DecodeM.bind_eq, DecodeM.bind_apply]
          unfold decodeBytes
          simp only [DecodeM.bind_eq, DecodeM.bind_apply]
          rw [hpk]
          dsimp only
          rw [if_neg (by simp [hmt]), hstep]
          dsimp only
          rw [if_pos (by decide)]
          unfold bigNumFromHex
          rw [if_neg hne]
          rfl
        · unfold decodeBigInt
          rw [if_neg (by decide)]
          simp only [DecodeM.bind_eq, DecodeM.bind_apply]
          rw [hpk]
          dsimp only
          rw [if_neg (by simp [hmt])]
          simp only [DecodeM.bind_eq, DecodeM.bind_apply]
          unfold decodeBytes
          simp only [DecodeM.bind_eq, DecodeM.bind_apply]
          rw [hpk]
          dsimp only
          rw [if_neg (by simp [hmt]), hstep]
          dsimp only
          rw [if_neg (by decide)]
          unfold bigNumFromHex
          rw [if_neg hne]
          rfl
      · rw [if_pos (by simp [hmt])] at hstep
        simp [DecodeM.throw] at hstep
  · intro fuel s t hav hb hmt
    have hpk : peek s = (.ok t, s) := by
      rw [peek_ok hav, hb]
    constructor
    · unfold decodeBigInt
      rw [if_neg (by decide)]
      simp only [DecodeM.bind_eq, DecodeM.bind_apply]
      rw [hpk]
      dsimp only
      rw [if_pos (by simp [isMajorType, hmt])]
      rfl
    · unfold decodeBigInt
      rw [if_neg (by decide)]
      simp only [DecodeM.bind_eq, DecodeM.bind_apply]
      rw [hpk]
      dsimp only
      rw [if_pos (by simp [isMajorType, hmt])]
      rfl

/-- Witness for C4 (amended): the two-byte string `0x0100` decodes to 256
under the positive tag and to `-257` under the negative tag. -/
theorem c4_witness :
    decodeBigInt 3 (.num TAG_POSBIGINT) ⟨[0x42, 1, 0], 0, some 3, []⟩ =
      (.ok (.big (.int 256)), ⟨[0x42, 1, 0], 3, some 3, []⟩) ∧
    decodeBigInt 3 (.num TAG_NEGBIGINT) ⟨[0x42, 1, 0], 0, some 3, []⟩ =
      (.ok (.big (.int (-257))), ⟨[0x42, 1, 0], 3, some 3, []⟩) :=
  have h := c4_decodeBigInt_amended.1 3 ⟨[0x42, 1, 0], 0, some 3, []⟩ [1, 0]
    ⟨[0x42, 1, 0], 3, some 3, []⟩ (by rfl) (by simp) (by decide)
  ⟨h.1, h.2⟩

/-! ### Claim C5: decimal fractions

The MalformedDecimal condition is raised only by the array-size check of
`_decodeDecimal`; the lemmas below record that no sub-decoder it invokes can
raise it. -/

theorem bind_notMD {α β : Type} (x : DecodeM α) (f : α → DecodeM β) (s : DecoderState)
    (hx : (x s).1 ≠ .error .malformedDecimal)
    (hf : ∀ a s', (f a s').1 ≠ .error .malformedDecimal) :
    (DecodeM.bind x f s).1 ≠ .error .malformedDecimal := by
  rw [DecodeM.bind_apply]
  rcases hxs : x s with ⟨res, s1⟩
  cases res with
  | error e =>
    rw [hxs] at hx
    dsimp only
    simpa using hx
  | ok a =>
    dsimp only
    exact hf a s1

theorem ensureAvailable_notMD (n : ℤ) (s : DecoderState) :
    (ensureAvailable n s).1 ≠ .error .malformedDecimal := by
  rw [ensureAvailable_eq]
  split_ifs <;> simp

theorem ensureAvailableLen_notMD (len : NumVal) (s : DecoderState) :
    (ensureAvailableLen len s).1 ≠ .error .malformedDecimal := by
  obtain ⟨buf, st, lim, sb⟩ := s
  unfold ensureAvailableLen
  rcases lim with _ | L
  · simp
  · rcases len with z | b
    · dsimp only
      split_ifs <;> simp
    · rcases b with _ | z
      · simp
      · dsimp only
        split_ifs <;> simp

theorem peek_notMD (s : DecoderState) : (peek s).1 ≠ .error .malformedDecimal := by
  unfold peek
  simp only [DecodeM.bind_apply, ensureAvailable_eq]
  split_ifs <;> simp

theorem decodeValue_notMD (v : Nat) (s : DecoderState) :
    (decodeValue v s).1 ≠ .error .malformedDecimal := by
  by_cases h0 : minorType v < SIZE_8
  · rw [decodeValue_inline v s h0]
    simp
  · by_cases h8 : minorType v = SIZE_8
    · rw [decodeValue_size8 v s h8]
      split_ifs <;> simp
    · by_cases h16 : minorType v = SIZE_16
      · rw [decodeValue_size16 v s h16]
        split_ifs <;> simp
      · by_cases h32 : minorType v = SIZE_32
        · rw [decodeValue_size32 v s h32]
          split_ifs <;> simp
        · by_cases h64 : minorType v = SIZE_64
          · rw [decodeValue_size64 v s h64]
            by_cases ha : availAtLeast s 9
            · rw [if_pos ha]
              simp
            · rw [if_neg ha]
              simp
          · by_cases h31 : minorType v = SIZE_STREAM
            · rw [decodeValue_stream v s h31]
              simp
            · rw [decodeValue_invalid v s (by omega) h8 h16 h32 h64 h31]
              simp

theorem tryDecodeBreak_notMD (s : DecoderState) :
    (tryDecodeBreak s).1 ≠ .error .malformedDecimal := by
  unfold tryDecodeBreak
  simp only [DecodeM.bind_eq]
  apply bind_notMD _ _ _ (peek_notMD s)
  intro a s'
  split_ifs
  · apply bind_notMD _ _ _ (by simp [consume])
    intro b s''
    simp [DecodeM.pure]
  · simp [DecodeM.pure]

theorem bytesCore_notMD : ∀ fuel op s, (bytesCore fuel op s).1 ≠ .error .malformedDecimal := by
  intro fuel
  induction fuel with
  | zero =>
    intro op s
    simp [bytesCore, DecodeM.throw]
  | succ f ih =>
    intro op s
    cases op with
    | some t =>
      unfold bytesCore
      simp only [DecodeM.bind_eq]
      apply bind_notMD _ _ _ (decodeValue_notMD t s)
      intro len s'
      split_ifs
      · apply bind_notMD _ _ _ (ensureAvailableLen_notMD len s')
        intro u s''
        apply bind_notMD _ _ _ (by simp [sbufAppendSlice])
        intro u2 s3
        simp [consume]
      · exact ih none s'
    | none =>
      unfold bytesCore
      simp only [DecodeM.bind_eq]
      apply bind_notMD _ _ _ (tryDecodeBreak_notMD s)
      intro br s'
      split_ifs
      · simp [DecodeM.pure]
      · apply bind_notMD _ _ _ (peek_notMD s')
        intro t s''
        apply bind_notMD _ _ _ (ih (some t) s'')
        intro u s3
        exact ih none s3

theorem decodeBytes_notMD (fuel : Nat) (s : DecoderState) :
    (decodeBytes fuel s).1 ≠ .error .malformedDecimal := by
  unfold decodeBytes
  simp only [DecodeM.bind_eq]
  apply bind_notMD _ _ _ (peek_notMD s)
  intro t s'
  split_ifs
  · simp [DecodeM.throw]
  · apply bind_notMD _ _ _ (bytesCore_notMD fuel (some t) s')
    intro u s''
    simp [sbufRead]

theorem decodeBigInt_notMD (fuel : Nat) (tag : NumVal) (s : DecoderState) :
    (decodeBigInt fuel tag s).1 ≠ .error .malformedDecimal := by
  unfold decodeBigInt
  simp only [DecodeM.bind_eq]
  by_cases h1 : (!tag.looseEqInt TAG_POSBIGINT && !tag.looseEqInt TAG_NEGBIGINT) = true
  · rw [if_pos h1]
    simp [DecodeM.throw]
  · rw [if_neg h1]
    apply bind_notMD _ _ _ (peek_notMD s)
    intro t s'
    by_cases h2 : (!isMajorType t TYPE_BYTES) = true
    · rw [if_pos h2]
      simp [DecodeM.throw]
    · rw [if_neg h2]
      apply bind_notMD _ _ _ (decodeBytes_notMD fuel s')
      intro bs s''
      simp [DecodeM.pure]

theorem decodeTag_notMD (t : Nat) (s : DecoderState) :
    (decodeTag t s).1 ≠ .error .malformedDecimal := by
  unfold decodeTag
  split_ifs
  · simp [DecodeM.throw]
  · exact decodeValue_notMD t s

theorem decodeInt_notMD (fuel : Nat) (s : DecoderState) :
    (decodeInt fuel s).1 ≠ .error .malformedDecimal := by
  unfold decodeInt
  simp only [DecodeM.bind_eq]
  apply bind_notMD _ _ _ (peek_notMD s)
  intro t s'
  by_cases h1 : majorType t ≠ TYPE_POSINT ∧ majorType t ≠ TYPE_NEGINT
  · rw [if_pos h1]
    by_cases h2 : majorType t = TYPE_TAG
    · rw [if_pos h2]
      apply bind_notMD _ _ _ (decodeTag_notMD t s')
      intro tag s''
      by_cases h3 : (tag.isNum TAG_POSBIGINT || tag.isNum TAG_NEGBIGINT) = true
      · rw [if_pos h3]
        exact decodeBigInt_notMD fuel tag s''
      · rw [if_neg h3]
        simp [DecodeM.throw]
    · rw [if_neg h2]
      simp [DecodeM.throw]
  · rw [if_neg h1]
    apply bind_notMD _ _ _ (decodeValue_notMD t s')
    intro v s''
    simp [DecodeM.pure]

theorem decodeArrayLength_notMD (s : DecoderState) :
    (decodeArrayLength s).1 ≠ .error .malformedDecimal := by
  unfold decodeArrayLength
  simp only [DecodeM.bind_eq]
  apply bind_notMD _ _ _ (peek_notMD s)
  intro t s'
  split_ifs
  · simp [DecodeM.throw]
  · exact decodeValue_notMD t s'

/-- Counterexample for C5 as stated: for the decimal payload whose scale is
the arbitrary-precision integer `2^53 + 1`, the stored exponent is
`-(2^53)` — the scale is coerced to a double (rounding ties-to-even) before
the JavaScript unary minus — and not `-(2^53 + 1)` as the claim requires. -/
theorem c5_counterexample :
    decodeObject noHandlers 20
        ⟨[0xc4, 0x82, 0x1b, 0x00, 0x20, 0, 0, 0, 0, 0, 1, 0x01], 0, some 12, []⟩ =
      (.ok (.dec ⟨.int 1, some (-9007199254740992)⟩),
        ⟨[0xc4, 0x82, 0x1b, 0x00, 0x20, 0, 0, 0, 0, 0, 1, 0x01], 12, some 12, []⟩) ∧
    decodeInt 20 ⟨[0xc4, 0x82, 0x1b, 0x00, 0x20, 0, 0, 0, 0, 0, 1, 0x01], 2, some 12, []⟩ =
      (.ok (.big (.int 9007199254740993)),
        ⟨[0xc4, 0x82, 0x1b, 0x00, 0x20, 0, 0, 0, 0, 0, 1, 0x01], 11, some 12, []⟩) ∧
    (some (-9007199254740992 : ℤ)) ≠ (some (-(9007199254740993 : ℤ))) :=
  ⟨by rfl, by rfl, by decide⟩

/-- Claim C5 (amended): decoding a decimal-fraction tag fails with
MalformedDecimal exactly when the following array's declared length is not
2; otherwise, for a payload `[scale, unscaled]`, it returns the decimal
whose unscaled integer is the second element and whose stored exponent is
the JavaScript negation of the scale — exactly `-scale` for a native-range
scale, and the negation of the scale rounded to the nearest double when the
scale is an arbitrary-precision integer (NaN propagating). -/
theorem c5_decodeDecimal_amended :
    (∀ fuel s, (decodeDecimal fuel (.num TAG_DECIMAL) s).1 = .error .malformedDecimal ↔
      ∃ len s1, decodeArrayLength s = (.ok len, s1) ∧ len.looseEqInt 2 = false) ∧
    (∀ fuel s len s1 sc s2 uv s3, decodeArrayLength s = (.ok len, s1) →
      len.looseEqInt 2 = true →
      decodeInt fuel s1 = (.ok sc, s2) → decodeInt fuel s2 = (.ok uv, s3) →
      decodeDecimal fuel (.num TAG_DECIMAL) s =
        (.ok (.dec ⟨valueToBigNum uv, jsNegToExp sc⟩), s3)) := by
  constructor
  · intro fuel s
    constructor
    · intro hmd
      unfold decodeDecimal at hmd
      rw [if_neg (by decide)] at hmd
      simp only [DecodeM.bind_eq, DecodeM.bind_apply] at hmd
      rcases hdal : decodeArrayLength s with ⟨res, s1⟩
      rw [hdal] at hmd
      cases res with
      | error e =>
        dsimp only at hmd
        have hne := decodeArrayLength_notMD s
        rw [hdal] at hne
        exact absurd (by simpa using hmd) (by simpa using hne)
      | ok len =>
        dsimp only at hmd
        by_cases hlen : len.looseEqInt 2 = true
        · rw [if_neg (by simp [hlen])] at hmd
          exfalso
          revert hmd
          apply bind_notMD _ _ _ (decodeInt_notMD fuel s1)
          intro sc s2
          apply bind_notMD _ _ _ (decodeInt_notMD fuel s2)
          intro uv s3
          simp [DecodeM.pure]
        · exact ⟨len, s1, rfl, by simpa using hlen⟩
    · rintro ⟨len, s1, hdal, hlen⟩
      unfold decodeDecimal
      rw [if_neg (by decide)]
      simp only [DecodeM.bind_eq, DecodeM.bind_apply]
      rw [hdal]
      dsimp only
      rw [if_pos (by simp [hlen])]
      rfl
  · intro fuel s len s1 sc s2 uv s3 hdal hlen hsc huv
    unfold decodeDecimal
    rw [if_neg (by decide)]
    simp only [DecodeM.bind_eq, DecodeM.bind_apply]
    rw [hdal]
    dsimp only
    rw [if_neg (by simp [hlen])]
    simp only [DecodeM.bind_eq, DecodeM.bind_apply]
    rw [hsc]
    dsimp only
    rw [huv]
    rfl

/-- Witness for C5 (amended): the payload `[2, 12345]` decodes to the
decimal with unscaled integer 12345 and exponent `-2`. -/
theorem c5_witness :
    decodeDecimal 3 (.num TAG_DECIMAL) ⟨[0x82, 0x02, 0x19, 0x30, 0x39], 0, some 5, []⟩ =
      (.ok (.dec ⟨.int 12345, some (-2)⟩), ⟨[0x82, 0x02, 0x19, 0x30, 0x39], 5, some 5, []⟩) :=
  c5_decodeDecimal_amended.2 3 ⟨[0x82, 0x02, 0x19, 0x30, 0x39], 0, some 5, []⟩
    (.num 2) ⟨[0x82, 0x02, 0x19, 0x30, 0x39], 1, some 5, []⟩
    (.num 2) ⟨[0x82, 0x02, 0x19, 0x30, 0x39], 2, some 5, []⟩
    (.num 12345) ⟨[0x82, 0x02, 0x19, 0x30, 0x39], 5, some 5, []⟩
    (by rfl) (by decide) (by rfl) (by rfl)

/-! ### Claim C7: indefinite-length byte strings -/

@[simp] theorem byteAt_cons_zero (a : Nat) (l : List Nat) : byteAt (a :: l) 0 = a := rfl

@[simp] theorem byteAt_cons_succ (a : Nat) (l : List Nat) (k : Nat) :
    byteAt (a :: l) (k+1) = byteAt l k := rfl

theorem byteAt_append_right (P X : List Nat) (k : Nat) :
    byteAt (P ++ X) (P.length + k) = byteAt X k := by
  induction P with
  | nil => simp
  | cons a P ih =>
    have h : (a :: P).length + k = (P.length + k) + 1 := by
      simp
      omega
    rw [h, List.cons_append, byteAt_cons_succ, ih]

theorem drop_append_len (P X : List Nat) : (P ++ X).drop P.length = X := by
  induction P with
  | nil => rfl
  | cons a P ih => simp

theorem take_append_len (P X : List Nat) : (P ++ X).take P.length = P := by
  induction P with
  | nil => rfl
  | cons a P ih => simp

theorem availAtLeast_some {s : DecoderState} {L : Nat} (hl : s.limit = some L) (n : ℤ)
    (h : n ≤ (L : ℤ) - s.start) : availAtLeast s n := by
  unfold availAtLeast
  rw [hl]
  exact h

theorem ensureAvailableLen_num_ok (z : ℤ) (s : DecoderState) (h : availAtLeast s z) :
    ensureAvailableLen (.num z) s = (.ok (), s) := by
  obtain ⟨buf, st, lim, sb⟩ := s
  unfold ensureAvailableLen
  rcases lim with _ | L
  · rfl
  · dsimp only
    rw [if_neg (by
      have h' : z ≤ (L : ℤ) - st := by simpa [availAtLeast] using h
      omega)]

theorem decodeValue_defHeader (n : Nat) (hn : n < 2^32) (s : DecoderState) (Q X : List Nat)
    (hbuf : s.buffer = Q ++ defBytesHeader n ++ X)
    (hstart : s.start = Q.length)
    (hav : availAtLeast s ((defBytesHeader n).length : ℤ)) :
    decodeValue (byteAt s.buffer s.start) s =
      (.ok (.num n), {s with start := s.start + (defBytesHeader n).length}) := by
  have hj : ∀ j, byteAt s.buffer (s.start + j) = byteAt (defBytesHeader n ++ X) j := by
    intro j
    rw [hbuf, hstart, List.append_assoc, byteAt_append_right]
  have h0 : byteAt s.buffer s.start = byteAt (defBytesHeader n ++ X) 0 := by
    have h := hj 0
    simpa using h
  by_cases h24 : n < 24
  · have hhdr : defBytesHeader n = [TYPE_BYTES + n] := by
      simp [defBytesHeader, h24]
    have hb : byteAt s.buffer s.start = TYPE_BYTES + n := by
      rw [h0, hhdr]
      rfl
    rw [hb]
    have hmin : minorType (TYPE_BYTES + n) = n := by
      unfold minorType TYPE_BYTES
      omega
    rw [decodeValue_inline _ _ (by rw [hmin]; simpa [SIZE_8] using h24)]
    simp [hmin, hhdr]
  · by_cases h256 : n < 256
    · have hhdr : defBytesHeader n = [0x58, n] := by
        simp [defBytesHeader, h24, h256]
      have hb : byteAt s.buffer s.start = 0x58 := by
        rw [h0, hhdr]
        rfl
      rw [hb]
      rw [decodeValue_size8 _ _ (by decide)]
      rw [if_pos (by simpa [hhdr] using hav)]
      have hb1 : byteAt s.buffer (s.start + 1) = n := by
        have h := hj 1
        rw [hhdr] at h
        simpa using h
      rw [hb1]
      simp [hhdr]
    · by_cases h65536 : n < 65536
      · have hhdr : defBytesHeader n = [0x59, n / 256, n % 256] := by
          simp [defBytesHeader, h24, h256, h65536]
        have hb : byteAt s.buffer s.start = 0x59 := by
          rw [h0, hhdr]
          rfl
        rw [hb]
        rw [decodeValue_size16 _ _ (by decide)]
        rw [if_pos (by simpa [hhdr] using hav)]
        have hb1 : byteAt s.buffer (s.start + 1) = n / 256 := by
          have h := hj 1
          rw [hhdr] at h
          simpa using h
        have hb2 : byteAt s.buffer (s.start + 2) = n % 256 := by
          have h := hj 2
          rw [hhdr] at h
          simpa using h
        have hr : readUInt16BE s.buffer (s.start + 1) = n := by
          unfold readUInt16BE
          rw [hb1, show s.start + 1 + 1 = s.start + 2 from rfl, hb2]
          omega
        rw [hr]
        simp [hhdr]
      · have hhdr : defBytesHeader n =
            [0x5a, n / 2^24 % 256, n / 2^16 % 256, n / 2^8 % 256, n % 256] := by
          simp [defBytesHeader, h24, h256, h65536]
        have hb : byteAt s.buffer s.start = 0x5a := by
          rw [h0, hhdr]
          rfl
        rw [hb]
        rw [decodeValue_size32 _ _ (by decide)]
        rw [if_pos (by simpa [hhdr] using hav)]
        have hb1 : byteAt s.buffer (s.start + 1) = n / 2^24 % 256 := by
          have h := hj 1
          rw [hhdr] at h
          simpa using h
        have hb2 : byteAt s.buffer (s.start + 2) = n / 2^16 % 256 := by
          have h := hj 2
          rw [hhdr] at h
          simpa using h
        have hb3 : byteAt s.buffer (s.start + 3) = n / 2^8 % 256 := by
          have h := hj 3
          rw [hhdr] at h
          simpa using h
        have hb4 : byteAt s.buffer (s.start + 4) = n % 256 := by
          have h := hj 4
          rw [hhdr] at h
          simpa using h
        have hr : readUInt32BE s.buffer (s.start + 1) = n := by
          unfold readUInt32BE
          rw [hb1, show s.start + 1 + 1 = s.start + 2 from rfl, hb2,
            show s.start + 1 + 2 = s.start + 3 from rfl, hb3,
            show s.start + 1 + 3 = s.start + 4 from rfl, hb4]
          omega
        rw [hr]
        simp [hhdr]

theorem bytesCore_defChunk (f : Nat) (hf : 1 ≤ f) (c Q X : List Nat) (L : Nat)
    (hn : c.length < 2^32) (s : DecoderState)
    (hbuf : s.buffer = Q ++ encodeDefBytes c ++ X)
    (hstart : s.start = Q.length)
    (hlim : s.limit = some L)
    (hL : Q.length + (encodeDefBytes c).length ≤ L) :
    bytesCore f (some (byteAt s.buffer s.start)) s =
      (.ok (),
        {s with start := s.start + (encodeDefBytes c).length, sbuf := s.sbuf ++ c}) := by
  obtain ⟨f, rfl⟩ : ∃ f', f = f' + 1 := ⟨f - 1, by omega⟩
  have hhdrlen : (encodeDefBytes c).length = (defBytesHeader c.length).length + c.length := by
    simp [encodeDefBytes]
  rw [hhdrlen] at hL
  unfold bytesCore
  simp only [DecodeM.bind_eq, DecodeM.bind_apply]
  have hbuf2 : s.buffer = Q ++ defBytesHeader c.length ++ (c ++ X) := by
    rw [hbuf]
    simp [encodeDefBytes]
  have hav : availAtLeast s ((defBytesHeader c.length).length : ℤ) :=
    availAtLeast_some hlim _ (by rw [hstart]; omega)
  rw [decodeValue_defHeader c.length hn s Q (c ++ X) hbuf2 hstart hav]
  dsimp only
  rw [if_pos (by simp [NumVal.looseEqInt])]
  have havLen : availAtLeast
      {s with start := s.start + (defBytesHeader c.length).length} ((c.length : ℤ)) :=
    availAtLeast_some
      (show ({s with start := s.start + (defBytesHeader c.length).length} :
        DecoderState).limit = some L from hlim) _
      (by
        dsimp only
        rw [hstart]
        push_cast
        omega)
  simp only [DecodeM.bind_apply]
  rw [ensureAvailableLen_num_ok _ _ havLen]
  have hltn : lenToNat (.num (c.length : ℤ)) = c.length := by
    simp [lenToNat]
  have hslice : (s.buffer.drop (s.start + (defBytesHeader c.length).length)).take c.length
      = c := by
    have hst2 : s.start + (defBytesHeader c.length).length =
        (Q ++ defBytesHeader c.length).length := by
      rw [hstart]
      simp
    rw [hbuf2, hst2, drop_append_len, take_append_len]
  simp only [DecodeM.bind_apply, sbufAppendSlice, consume_apply, hltn]
  rw [hslice]
  have hst3 : s.start + (defBytesHeader c.length).length + c.length =
      s.start + (encodeDefBytes c).length := by
    rw [hhdrlen]
    omega
  rw [hst3]

theorem encodeDefBytes_head_ne_break (c X : List Nat) :
    byteAt (encodeDefBytes c ++ X) 0 ≠ TYPE_BREAK := by
  unfold encodeDefBytes defBytesHeader
  split_ifs with h1 h2 h3
  · simp only [List.cons_append, byteAt_cons_zero]
    unfold TYPE_BREAK TYPE_BYTES
    omega
  · simp only [List.cons_append, byteAt_cons_zero]
    decide
  · simp only [List.cons_append, byteAt_cons_zero]
    decide
  · simp only [List.cons_append, byteAt_cons_zero]
    decide

theorem bytesCore_streamLoop : ∀ (chunks : List (List Nat)) (f : Nat) (s : DecoderState)
    (Q R : List Nat) (L : Nat),
    chunks.length + 1 ≤ f →
    (∀ c ∈ chunks, c.length < 2^32) →
    s.buffer = Q ++ (chunks.map encodeDefBytes).flatten ++ (TYPE_BREAK :: R) →
    s.start = Q.length →
    s.limit = some L →
    Q.length + (chunks.map encodeDefBytes).flatten.length + 1 ≤ L →
    bytesCore f none s =
      (.ok (),
        {s with start := s.start + (chunks.map encodeDefBytes).flatten.length + 1, sbuf := s.sbuf ++ chunks.flatten}) := by
  intro chunks
  induction chunks with
  | nil =>
    intro f s Q R L hf hc hbuf hstart hlim hL
    obtain ⟨f, rfl⟩ : ∃ g, f = g + 1 := ⟨f - 1, by omega⟩
    unfold bytesCore
    simp only [DecodeM.bind_eq, DecodeM.bind_apply]
    simp only [List.map_nil] at hbuf hL ⊢
    simp only [List.flatten_nil, List.length_nil, List.nil_append, List.append_nil,
      Nat.add_zero] at hbuf hL ⊢
    have hav1 : availAtLeast s 1 := availAtLeast_some hlim _ (by rw [hstart]; omega)
    rw [tryDecodeBreak_eq s hav1]
    have hbb : byteAt s.buffer s.start = TYPE_BREAK := by
      rw [hbuf, hstart]
      have h := byteAt_append_right Q (TYPE_BREAK :: R) 0
      simpa using h
    rw [if_pos hbb]
    dsimp only
    simp [DecodeM.pure]
  | cons c cs ih =>
    intro f s Q R L hf hc hbuf hstart hlim hL
    obtain ⟨f, rfl⟩ : ∃ g, f = g + 1 := ⟨f - 1, by omega⟩
    unfold bytesCore
    simp only [DecodeM.bind_eq, DecodeM.bind_apply]
    simp only [List.map_cons, List.flatten_cons] at hbuf hL ⊢
    have hlensum : (encodeDefBytes c ++ (cs.map encodeDefBytes).flatten).length =
        (encodeDefBytes c).length + (cs.map encodeDefBytes).flatten.length := by
      simp
    rw [hlensum] at hL
    have hbufA : s.buffer =
        Q ++ encodeDefBytes c ++ ((cs.map encodeDefBytes).flatten ++ (TYPE_BREAK :: R)) := by
      rw [hbuf]
      simp
    have hav1 : availAtLeast s 1 := availAtLeast_some hlim _ (by rw [hstart]; omega)
    rw [tryDecodeBreak_eq s hav1]
    have hhead : ¬ byteAt s.buffer s.start = TYPE_BREAK := by
      rw [hbufA, hstart, List.append_assoc]
      have h := byteAt_append_right Q
        (encodeDefBytes c ++ ((cs.map encodeDefBytes).flatten ++ (TYPE_BREAK :: R))) 0
      rw [show Q.length = Q.length + 0 from rfl, h]
      exact encodeDefBytes_head_ne_break c _
    rw [if_neg hhead]
    dsimp only
    simp only [Bool.false_eq_true, if_false, DecodeM.bind_apply]
    rw [peek_ok hav1]
    dsimp only
    rw [bytesCore_defChunk f (by simp at hf; omega) c Q
      ((cs.map encodeDefBytes).flatten ++ (TYPE_BREAK :: R)) L (hc c (by simp)) s
      hbufA hstart hlim (by omega)]
    dsimp only
    rw [ih f _ (Q ++ encodeDefBytes c) R L
      (by simp at hf ⊢; omega)
      (fun d hd => hc d (by simp [hd]))
      (by
        dsimp only
        rw [hbufA]
        simp)
      (by
        dsimp only
        rw [hstart]
        simp)
      (by dsimp only; exact hlim)
      (by
        simp only [List.length_append]
        omega)]
    dsimp only
    have hst4 : s.start + (encodeDefBytes c).length +
        (cs.map encodeDefBytes).flatten.length + 1 =
        s.start + ((encodeDefBytes c).length + (cs.map encodeDefBytes).flatten.length) + 1 := by
      omega
    rw [hst4, List.append_assoc, hlensum]

/-- Claim C7: for every indefinite-length byte string made of `N`
definite-length chunks followed by the stop marker, `decodeBytes` returns
exactly the concatenation of the chunks in order (including `N = 0`, where
the result is empty), consuming the stop marker. -/
theorem c7_decodeBytes_stream (chunks : List (List Nat)) (f : Nat) (Q R : List Nat) (L : Nat)
    (s : DecoderState)
    (hf : chunks.length + 2 ≤ f)
    (hc : ∀ c ∈ chunks, c.length < 2^32)
    (hbuf : s.buffer = Q ++ (TYPE_BYTES + SIZE_STREAM) ::
      ((chunks.map encodeDefBytes).flatten ++ (TYPE_BREAK :: R)))
    (hstart : s.start = Q.length)
    (hlim : s.limit = some L)
    (hsb : s.sbuf = [])
    (hL : Q.length + 1 + (chunks.map encodeDefBytes).flatten.length + 1 ≤ L) :
    decodeBytes f s =
      (.ok chunks.flatten,
        {s with start := Q.length + 1 + (chunks.map encodeDefBytes).flatten.length + 1, sbuf := []}) := by
  obtain ⟨f, rfl⟩ : ∃ g, f = g + 1 := ⟨f - 1, by omega⟩
  have hav1 : availAtLeast s 1 := availAtLeast_some hlim _ (by rw [hstart]; omega)
  have hb0 : byteAt s.buffer s.start = TYPE_BYTES + SIZE_STREAM := by
    rw [hbuf, hstart]
    have h := byteAt_append_right Q ((TYPE_BYTES + SIZE_STREAM) ::
      ((chunks.map encodeDefBytes).flatten ++ (TYPE_BREAK :: R))) 0
    simpa using h
  unfold decodeBytes
  simp only [DecodeM.bind_eq, DecodeM.bind_apply]
  rw [peek_ok hav1, hb0]
  dsimp only
  rw [if_neg (by decide)]
  unfold bytesCore
  simp only [DecodeM.bind_eq, DecodeM.bind_apply]
  rw [decodeValue_stream _ _ (by decide)]
  dsimp only
  rw [if_neg (by simp [NumVal.looseEqInt])]
  rw [bytesCore_streamLoop chunks f _ (Q ++ [TYPE_BYTES + SIZE_STREAM]) R L
    (by omega)
    hc
    (by
      dsimp only
      rw [hbuf]
      simp)
    (by
      dsimp only
      rw [hstart]
      simp)
    (by dsimp only; exact hlim)
    (by
      simp only [List.length_append, List.length_cons, List.length_nil]
      omega)]
  dsimp only
  unfold sbufRead
  dsimp only
  rw [hsb, hstart]
  simp

/-- Witness for C7: a two-chunk indefinite byte string concatenates in
order, and the zero-chunk case yields the empty result, with the stop
marker consumed in both. -/
theorem c7_witness :
    decodeBytes 4 ⟨[0x5f, 0x41, 1, 0x42, 2, 3, 0xff], 0, some 7, []⟩ =
      (.ok [1, 2, 3], ⟨[0x5f, 0x41, 1, 0x42, 2, 3, 0xff], 7, some 7, []⟩) ∧
    decodeBytes 2 ⟨[0x5f, 0xff], 0, some 2, []⟩ =
      (.ok [], ⟨[0x5f, 0xff], 2, some 2, []⟩) :=
  ⟨c7_decodeBytes_stream [[1], [2, 3]] 4 [] [] 7
      ⟨[0x5f, 0x41, 1, 0x42, 2, 3, 0xff], 0, some 7, []⟩
      (by decide) (by decide) rfl rfl rfl rfl (by decide),
    c7_decodeBytes_stream [] 2 [] [] 2 ⟨[0x5f, 0xff], 0, some 2, []⟩
      (by decide) (by decide) rfl rfl rfl rfl (by decide)⟩

/-! ### Claim C6: maps and duplicate keys -/

